import Mathlib

/-!
# Ramdisk patchers of the patch engine: a shallow embedding

The development follows `libmbp/ramdiskpatchers/qcomramdiskpatcher.cpp` and
`libmbp/ramdiskpatchers/trelteramdiskpatcher.cpp`.

* A C++ `std::string` / `std::vector<unsigned char>` is a `List Char`, one
  `Char` per C++ `char`.
* `std::regex` (ECMAScript grammar, `std::regex_search`) is a backtracking
  matcher over the fragment of the grammar that the patterns of the source use.
* Member functions that mutate `m_impl` are functions from the state before the
  call to the returned `bool` and the state after the call.
-/

namespace mbp

/-- A C++ string, or byte vector, is a list of characters. -/
abbrev Str := List Char

/-! ## `std::regex`, ECMAScript grammar -/

/-- The class `\s` in the classic locale: space, `\t`, `\n`, `\v`, `\f`, `\r`. -/
def isSpace (c : Char) : Bool :=
  c == ' ' || c == '\t' || c == '\n' || c == Char.ofNat 11 || c == Char.ofNat 12 || c == '\r'

/-- The single-character matchers of the patterns: `\s`, `\S`, `.` and a literal. -/
inductive CharClass where
  | space
  | nonSpace
  | any
  | lit (c : Char)
  deriving DecidableEq, Repr

/-- Whether a character belongs to a class. In the ECMAScript grammar `.` is every
character but the line terminators `\n` and `\r`. -/
def CharClass.test : CharClass → Char → Bool
  | .space, c => isSpace c
  | .nonSpace, c => !isSpace c
  | .any, c => !(c == '\n' || c == '\r')
  | .lit d, c => c == d

/-- The fragment of the ECMAScript grammar used by the source: the assertion `^`,
one character of a class, the greedy quantifiers `+` and `*` on a class,
concatenation, a capture group and the greedy `?`. -/
inductive Re where
  | eps
  | bol
  | one (a : CharClass)
  | plus (a : CharClass)
  | star (a : CharClass)
  | seq (r s : Re)
  | group (i : Nat) (r : Re)
  | opt (r : Re)
  deriving Repr

/-- The literal text `s` as a pattern. -/
def Re.str (s : Str) : Re := s.foldr (fun c r => Re.seq (Re.one (CharClass.lit c)) r) Re.eps

/-- Concatenation of a list of patterns. -/
def Re.cat (rs : List Re) : Re := rs.foldr Re.seq Re.eps

/-- The state of the matcher: the offset of the current position from the beginning
of the subject, the subject from the current position on, and the capture groups
set so far. -/
structure MState where
  pos : Nat
  rest : Str
  caps : Nat → Option Str

/-- No capture group has taken part in the match. -/
def noCaps : Nat → Option Str := fun _ => none

/-- Record the text of capture group `i`. -/
def setCap (caps : Nat → Option Str) (i : Nat) (s : Str) : Nat → Option Str :=
  fun j => if j = i then some s else caps j

/-- The greedy loop of `a*`: consume as many characters of the class as possible,
then back off one character at a time until the continuation succeeds. -/
def starK (a : CharClass) (k : MState → Option MState) (pos : Nat)
    (caps : Nat → Option Str) : Str → Option MState
  | [] => k ⟨pos, [], caps⟩
  | c :: cs =>
    if a.test c then
      match starK a k (pos + 1) caps cs with
      | some m => some m
      | none => k ⟨pos, c :: cs, caps⟩
    else k ⟨pos, c :: cs, caps⟩

/-- The backtracking matcher, in continuation-passing style: `r.run k s` is the
first match, in the priority order of the ECMAScript grammar, of `r` from state `s`
followed by whatever `k` accepts. -/
def Re.run : Re → (MState → Option MState) → MState → Option MState
  | .eps, k, s => k s
  | .bol, k, s => if s.pos = 0 then k s else none
  | .one a, k, s =>
    match s.rest with
    | c :: cs => if a.test c then k ⟨s.pos + 1, cs, s.caps⟩ else none
    | [] => none
  | .plus a, k, s =>
    match s.rest with
    | c :: cs => if a.test c then starK a k (s.pos + 1) s.caps cs else none
    | [] => none
  | .star a, k, s => starK a k s.pos s.caps s.rest
  | .seq r t, k, s => r.run (t.run k) s
  | .group i r, k, s =>
    r.run (fun e => k ⟨e.pos, e.rest, setCap e.caps i (s.rest.take (e.pos - s.pos))⟩) s
  | .opt r, k, s =>
    match r.run k s with
    | some m => some m
    | none => k s

/-- The search loop of `std::regex_search`: try a match at every offset of the
subject, from the left, the offset of the end included. -/
def searchFrom (r : Re) (pos : Nat) : Str → Option MState
  | [] => r.run some ⟨pos, [], noCaps⟩
  | c :: cs =>
    match r.run some ⟨pos, c :: cs, noCaps⟩ with
    | some m => some m
    | none => searchFrom r (pos + 1) cs

/-- `std::regex_search(line, what, std::regex(re))`: `none` when there is no match,
the capture groups `what` otherwise. -/
def regex_search (line : Str) (re : Re) : Option (Nat → Option Str) :=
  (searchFrom re 0 line).map MState.caps

/-- The text of `what[i]`: empty when the group took no part in the match. -/
def subMatch (what : Nat → Option Str) (i : Nat) : Str := (what i).getD []

/-! ## `boost::split` and `boost::join` -/

/-- `boost::split(lines, contents, boost::is_any_of("\n"))`: the tokens between the
separators, empty tokens kept; an input without separator is one token. -/
def split : Str → List Str
  | [] => [[]]
  | c :: cs =>
    if c = '\n' then [] :: split cs
    else
      match split cs with
      | [] => [[c]]
      | l :: ls => (c :: l) :: ls

/-- `boost::join(lines, "\n")`. -/
def join : List Str → Str
  | [] => []
  | [l] => l
  | l :: m :: ls => l ++ '\n' :: join (m :: ls)

/-! ## Errors -/

/-- The closed enumeration of error kinds, as switched over by `errorToString` in
`gui/mainwindow.cpp`. -/
inductive ErrorCode where
  | NoError
  | UnknownError
  | PatcherCreateError
  | AutoPatcherCreateError
  | RamdiskPatcherCreateError
  | FileOpenError
  | FileReadError
  | FileWriteError
  | DirectoryNotExistError
  | BootImageParseError
  | BootImageApplyBumpError
  | BootImageApplyLokiError
  | CpioFileAlreadyExistsError
  | CpioFileNotExistError
  | ArchiveReadOpenError
  | ArchiveReadDataError
  | ArchiveReadHeaderError
  | ArchiveWriteOpenError
  | ArchiveWriteDataError
  | ArchiveWriteHeaderError
  | ArchiveCloseError
  | ArchiveFreeError
  | XmlParseFileError
  | OnlyZipSupported
  | OnlyBootImageSupported
  | PatchingCancelled
  | SystemCacheFormatLinesNotFound
  deriving DecidableEq, Repr

/-- Modelled from the spec: the class `PatcherError` is declared outside the given
sources. It is a tagged value, a kind of the closed enumeration together with the
contextual fields `filename` and `patcherId` that `errorToString` reads. -/
structure PatcherError where
  errorCode : ErrorCode
  filename : Str
  patcherId : Str
  deriving DecidableEq, Repr

/-- Modelled from the spec: the default-constructed `PatcherError`, not declared in
the given sources, is the kind no-error with empty contextual fields. -/
def PatcherError.none : PatcherError := ⟨ErrorCode.NoError, [], []⟩

/-! ## The archive -/

/-- Modelled from the spec: an archive entry, not declared in the given sources, has
a name, a content and optional mode and ownership metadata. -/
structure ArchiveEntry where
  name : Str
  content : Str
  mode : Option Nat
  ownership : Option (Nat × Nat)
  deriving DecidableEq, Repr

/-- Modelled from the spec: the class `CpioFile` is declared outside the given
sources. It owns the ordered entries of the archive and the error of its last failed
operation. -/
structure CpioFile where
  files : List ArchiveEntry
  error : PatcherError
  deriving DecidableEq, Repr

/-- Modelled from the spec: `names() -> ordered sequence`, the member `filenames()`
that the given sources call but do not define. -/
def CpioFile.filenames (cpio : CpioFile) : List Str := cpio.files.map ArchiveEntry.name

/-- Modelled from the spec: the lookup behind `get(name)`, the content of the first
entry called `name`, if there is one. -/
def findContents (name : Str) : List ArchiveEntry → Option Str
  | [] => none
  | e :: es => if e.name = name then some e.content else findContents name es

/-- Modelled from the spec: `get(name) -> content | NotFoundError`, the member
`contents(name, &data)` that the given sources call but do not define. It returns
the content of the entry; when there is no such entry it returns nothing (`false`
in the source) and records the error archive-entry-not-exist with that name. -/
def CpioFile.contents (cpio : CpioFile) (name : Str) : Option Str × CpioFile :=
  match findContents name cpio.files with
  | some data => (some data, cpio)
  | none => (none, { cpio with error := ⟨ErrorCode.CpioFileNotExistError, name, []⟩ })

/-- Modelled from the spec: the update behind `set(name, content)`, which overwrites
in place the content of the first entry called `name` and appends a new entry when
there is none. -/
def replaceContents (name : Str) (data : Str) : List ArchiveEntry → List ArchiveEntry
  | [] => [⟨name, data, none, none⟩]
  | e :: es =>
    if e.name = name then { e with content := data } :: es
    else e :: replaceContents name data es

/-- Modelled from the spec: `set(name, content)` (inserts if absent, overwrites in
place if present - position in iteration order unchanged on overwrite, appended on
insert), the member `setContents(name, data)` that the given sources call but do
not define. -/
def CpioFile.setContents (cpio : CpioFile) (name : Str) (data : Str) : CpioFile :=
  { cpio with files := replaceContents name data cpio.files }

/-! ## `QcomRamdiskPatcher` -/

/-- The private implementation `Impl` shared by the ramdisk patchers: the
configuration view and the job's file info (both declared outside the given sources,
hence parameters), the archive the patcher works on, and the patcher's error. -/
structure Impl (PC FI : Type) where
  pc : PC
  info : FI
  cpio : CpioFile
  error : PatcherError

/-- The pattern `"^(#.+)?(/dev/\\S+)\\s+(\\S+)\\s+(\\S+)\\s+(\\S+)\\s+(\\S+)"`. -/
def FstabRegex : Re :=
  Re.cat [Re.bol,
    Re.opt (Re.group 1 (Re.seq (Re.one (CharClass.lit '#')) (Re.plus CharClass.any))),
    Re.group 2 (Re.seq (Re.str "/dev/".toList) (Re.plus CharClass.nonSpace)),
    Re.plus CharClass.space,
    Re.group 3 (Re.plus CharClass.nonSpace),
    Re.plus CharClass.space,
    Re.group 4 (Re.plus CharClass.nonSpace),
    Re.plus CharClass.space,
    Re.group 5 (Re.plus CharClass.nonSpace),
    Re.plus CharClass.space,
    Re.group 6 (Re.plus CharClass.nonSpace)]

/-- The constant `CachePartition`. -/
def CachePartition : Str := "/dev/block/platform/msm_sdcc.1/by-name/cache".toList

/-- The constant `Cache`. -/
def Cache : Str := "/cache".toList

/-- The line that `addMissingCacheInFstab` appends:
`fmt::format("{0} /cache ext4 {1} {2}", CachePartition, mountArgs, voldArgs)` with
`mountArgs = "nosuid,nodev,barrier=1"` and `voldArgs = "wait,check"`. -/
def cacheLine : Str :=
  CachePartition ++ " /cache ext4 ".toList ++ "nosuid,nodev,barrier=1".toList
    ++ " ".toList ++ "wait,check".toList

/-- The test of the inner loop of `addMissingCacheInFstab` on one line:
`hasMatch && what[3] == Cache`. -/
def isCacheLine (line : Str) : Bool :=
  match regex_search line FstabRegex with
  | some what => subMatch what 3 == Cache
  | none => false

/-- The inner loop of `addMissingCacheInFstab`: `hasCacheLine` starts `false` and is
set on every line that passes the test. -/
def hasCacheLine (lines : List Str) : Bool :=
  lines.foldl (fun found line => if isCacheLine line then true else found) false

/-- The body of the outer loop of `addMissingCacheInFstab` between reading and
writing back: the new content of one fstab file. -/
def addCacheLine (contents : Str) : Str :=
  let lines := split contents
  let lines := if !hasCacheLine lines then lines ++ [cacheLine] else lines
  join lines

/-- The outer loop of `addMissingCacheInFstab` over the collected names. -/
def addMissingCacheLoop {PC FI : Type} : List Str → Impl PC FI → Bool × Impl PC FI
  | [], self => (true, self)
  | fstab :: fstabs, self =>
    match self.cpio.contents fstab with
    | (none, cpio) => (false, { self with cpio := cpio, error := cpio.error })
    | (some contents, cpio) =>
      addMissingCacheLoop fstabs
        { self with cpio := cpio.setContents fstab (addCacheLine contents) }

/-- The names that `addMissingCacheInFstab` collects: the archive's names that start
with `"fstab."`, in archive order, then the additional names. -/
def fstabTargets (cpio : CpioFile) (additionalFstabs : List Str) : List Str :=
  cpio.filenames.filter (fun file => "fstab.".toList.isPrefixOf file) ++ additionalFstabs

/-- The member `QcomRamdiskPatcher::addMissingCacheInFstab`. -/
def QcomRamdiskPatcher.addMissingCacheInFstab {PC FI : Type} (self : Impl PC FI)
    (additionalFstabs : List Str) : Bool × Impl PC FI :=
  addMissingCacheLoop (fstabTargets self.cpio additionalFstabs) self

/-- The member `QcomRamdiskPatcher::error`. -/
def QcomRamdiskPatcher.error {PC FI : Type} (self : Impl PC FI) : PatcherError := self.error

/-- The member `QcomRamdiskPatcher::id`. -/
def QcomRamdiskPatcher.id {PC FI : Type} (_self : Impl PC FI) : Str := []

/-- The member `QcomRamdiskPatcher::patchRamdisk`. -/
def QcomRamdiskPatcher.patchRamdisk {PC FI : Type} (self : Impl PC FI) : Bool × Impl PC FI :=
  (false, self)

/-- The pattern `"^\\s+wait\\s+/dev/.*/cache"`. -/
def reWaitCache : Re :=
  Re.cat [Re.bol, Re.plus CharClass.space, Re.str "wait".toList, Re.plus CharClass.space,
    Re.str "/dev/".toList, Re.star CharClass.any, Re.str "/cache".toList]

/-- The pattern `"^\\s+check_fs\\s+/dev/.*/cache"`. -/
def reCheckFsCache : Re :=
  Re.cat [Re.bol, Re.plus CharClass.space, Re.str "check_fs".toList, Re.plus CharClass.space,
    Re.str "/dev/".toList, Re.star CharClass.any, Re.str "/cache".toList]

/-- The pattern `"^\\s+mount\\s+ext4\\s+/dev/.*/cache"`. -/
def reMountCache : Re :=
  Re.cat [Re.bol, Re.plus CharClass.space, Re.str "mount".toList, Re.plus CharClass.space,
    Re.str "ext4".toList, Re.plus CharClass.space,
    Re.str "/dev/".toList, Re.star CharClass.any, Re.str "/cache".toList]

/-- The pattern `"^\\s+wait\\s+/dev/.*/userdata"`. -/
def reWaitData : Re :=
  Re.cat [Re.bol, Re.plus CharClass.space, Re.str "wait".toList, Re.plus CharClass.space,
    Re.str "/dev/".toList, Re.star CharClass.any, Re.str "/userdata".toList]

/-- The pattern `"^\\s+check_fs\\s+/dev/.*/userdata"`. -/
def reCheckFsData : Re :=
  Re.cat [Re.bol, Re.plus CharClass.space, Re.str "check_fs".toList, Re.plus CharClass.space,
    Re.str "/dev/".toList, Re.star CharClass.any, Re.str "/userdata".toList]

/-- The pattern `"^\\s+mount\\s+ext4\\s+/dev/.*/userdata"`. -/
def reMountData : Re :=
  Re.cat [Re.bol, Re.plus CharClass.space, Re.str "mount".toList, Re.plus CharClass.space,
    Re.str "ext4".toList, Re.plus CharClass.space,
    Re.str "/dev/".toList, Re.star CharClass.any, Re.str "/userdata".toList]

/-- The condition of the loop of `stripManualMounts` on one line: the disjunction of
the six searches. -/
def isManualMount (line : Str) : Bool :=
  (regex_search line reWaitCache).isSome
    || (regex_search line reCheckFsCache).isSome
    || (regex_search line reMountCache).isSome
    || (regex_search line reWaitData).isSome
    || (regex_search line reCheckFsData).isSome
    || (regex_search line reMountData).isSome

/-- The loop of `stripManualMounts`: `it->insert(it->begin(), '#')` on every line
that satisfies the condition. -/
def commentManualMounts : List Str → List Str
  | [] => []
  | line :: lines =>
    (if isManualMount line then '#' :: line else line) :: commentManualMounts lines

/-- The body of `stripManualMounts` between reading and writing back: the new
content of the file. -/
def stripContents (contents : Str) : Str :=
  join (commentManualMounts (split contents))

/-- The member `QcomRamdiskPatcher::stripManualMounts`. -/
def QcomRamdiskPatcher.stripManualMounts {PC FI : Type} (self : Impl PC FI)
    (filename : Str) : Bool × Impl PC FI :=
  match self.cpio.contents filename with
  | (none, cpio) => (false, { self with cpio := cpio, error := cpio.error })
  | (some contents, cpio) =>
    (true, { self with cpio := cpio.setContents filename (stripContents contents) })

/-! ## `TrelteDefaultRamdiskPatcher` -/

/-- The class `CoreRamdiskPatcher` is declared outside the given sources: its
private state is a parameter `Core`, and these are the members that
`TrelteDefaultRamdiskPatcher::patchRamdisk` uses. The core patcher is constructed
over the archive of the job and mutates it in place, so its state determines the
archive as it currently is. -/
structure CoreRamdiskPatcher (PC FI Core : Type) where
  construct : PC → FI → CpioFile → Core
  cpio : Core → CpioFile
  error : Core → PatcherError
  patchRamdisk : Core → Bool × Core
  useGeneratedFstabAuto : Core → Bool × Core
  fixChargerMountAuto : Core → Bool × Core

/-- The constant `TrelteDefaultRamdiskPatcher::Id`. -/
def TrelteDefaultRamdiskPatcher.Id : Str := "trelte/default".toList

/-- The member `TrelteDefaultRamdiskPatcher::id`. -/
def TrelteDefaultRamdiskPatcher.id {PC FI : Type} (_self : Impl PC FI) : Str :=
  TrelteDefaultRamdiskPatcher.Id

/-- The member `TrelteBaseRamdiskPatcher::error`. -/
def TrelteBaseRamdiskPatcher.error {PC FI : Type} (self : Impl PC FI) : PatcherError :=
  self.error

/-- The member `TrelteDefaultRamdiskPatcher::patchRamdisk`. -/
def TrelteDefaultRamdiskPatcher.patchRamdisk {PC FI Core : Type}
    (core : CoreRamdiskPatcher PC FI Core) (self : Impl PC FI) : Bool × Impl PC FI :=
  let corePatcher := core.construct self.pc self.info self.cpio
  match core.patchRamdisk corePatcher with
  | (false, c1) => (false, { self with cpio := core.cpio c1, error := core.error c1 })
  | (true, c1) =>
    match core.useGeneratedFstabAuto c1 with
    | (false, c2) => (false, { self with cpio := core.cpio c2, error := core.error c2 })
    | (true, c2) =>
      match core.fixChargerMountAuto c2 with
      | (false, c3) => (false, { self with cpio := core.cpio c3, error := core.error c3 })
      | (true, c3) => (true, { self with cpio := core.cpio c3 })

/-! ## Predicates of the statements -/

/-- A line that the fstab pattern matches without its comment group `(#.+)` taking
part, and whose mount-point field `what[3]` is `/cache`. -/
def isNonCommentCacheLine (line : Str) : Bool :=
  match regex_search line FstabRegex with
  | some what => (what 1).isNone && subMatch what 3 == Cache
  | none => false

/-- A line that the fstab pattern matches with its comment group `(#.+)` taking part,
and whose mount-point field `what[3]` is `/cache`. -/
def isCommentedCacheLine (line : Str) : Bool :=
  match regex_search line FstabRegex with
  | some what => (what 1).isSome && subMatch what 3 == Cache
  | none => false

/-- A non-empty run of whitespace characters. -/
def IsBlank (ws : Str) : Prop := ws ≠ [] ∧ ∀ c ∈ ws, isSpace c = true

/-- The lines that the six patterns of `stripManualMounts` describe, in the words of
the spec: leading whitespace; then `wait`, `check_fs`, or `mount`, whitespace and
`ext4`; then whitespace; then `/dev/`, any text without a line terminator, and
`/cache` or `/userdata`; anything may follow. -/
def ManualMountShape (line : Str) : Prop :=
  ∃ ws action ws' mid target tail,
    IsBlank ws
    ∧ (action = "wait".toList ∨ action = "check_fs".toList
        ∨ ∃ b, IsBlank b ∧ action = "mount".toList ++ b ++ "ext4".toList)
    ∧ IsBlank ws'
    ∧ (∀ c ∈ mid, c ≠ '\n' ∧ c ≠ '\r')
    ∧ (target = "/cache".toList ∨ target = "/userdata".toList)
    ∧ line = ws ++ action ++ ws' ++ "/dev/".toList ++ mid ++ target ++ tail

/-- A whitespace-separated field: a non-empty run of characters none of which is
whitespace. -/
def IsField (f : Str) : Prop := f ≠ [] ∧ ∀ c ∈ f, isSpace c = false

/-- The non-comment fstab lines whose mount point is `/cache`, in the words of the
spec: a device node that starts with `/dev/`, the mount point `/cache`, a filesystem
type, mount options and vold options, separated by whitespace; anything may follow
after further whitespace. -/
def CacheEntryShape (line : Str) : Prop :=
  ∃ dev ws1 ws2 type ws3 mountArgs ws4 voldArgs tail,
    IsField dev ∧ IsBlank ws1 ∧ IsBlank ws2 ∧ IsField type ∧ IsBlank ws3
    ∧ IsField mountArgs ∧ IsBlank ws4 ∧ IsField voldArgs
    ∧ (tail = [] ∨ ∃ y ys, tail = y :: ys ∧ isSpace y = true)
    ∧ line = "/dev/".toList ++ (dev ++ (ws1 ++ ("/cache".toList ++ (ws2 ++ (type ++ (ws3
        ++ (mountArgs ++ (ws4 ++ (voldArgs ++ tail)))))))))

/-- The subject at a position where the greedy loop of class `a` must stop: its end, or
a character that is not of the class. -/
def stopsAt (a : CharClass) (s : Str) : Prop :=
  s = [] ∨ ∃ y ys, s = y :: ys ∧ a.test y = false

/-! ## Example inputs -/

/-- An fstab without cache line: the file of end-to-end example 1. -/
def systemFstab : Str := "/dev/block/.../system /system ext4 ro,barrier=1 wait".toList

/-- An fstab with a cache line, ending in a newline. -/
def cachedFstab : Str :=
  "/dev/block/x /system ext4 ro wait\n/dev/block/x /cache ext4 defaults wait\n".toList

/-- An fstab whose only cache entry is commented out. -/
def commentedFstab : Str := "# /dev/block/x /cache ext4 defaults wait".toList

/-- An init script with the two lines of end-to-end example 2. -/
def initScript : Str :=
  ("    mount ext4 /dev/block/platform/.../cache /cache noatime\n"
    ++ "    mount ext4 /dev/block/.../system /system").toList

/-- The init script after `stripManualMounts`. -/
def initScriptStripped : Str :=
  ("#    mount ext4 /dev/block/platform/.../cache /cache noatime\n"
    ++ "    mount ext4 /dev/block/.../system /system").toList

/-- An archive with an init script, three fstab files and a file called `fstab`. -/
def exampleArchive : CpioFile :=
  { files :=
      [⟨"init.rc".toList, initScript, some 488, some (0, 0)⟩,
       ⟨"fstab.qcom".toList, systemFstab, some 416, some (0, 0)⟩,
       ⟨"fstab.cached".toList, cachedFstab, some 416, none⟩,
       ⟨"fstab".toList, systemFstab, none, none⟩,
       ⟨"fstab.commented".toList, commentedFstab, none, none⟩],
    error := PatcherError.none }

/-- A freshly constructed patcher over the example archive. -/
def examplePatcher : Impl Unit Unit :=
  { pc := (), info := (), cpio := exampleArchive, error := PatcherError.none }

/-- An example core patcher, to instantiate the statements about
`TrelteDefaultRamdiskPatcher`: its state is the archive and its error; its first step
rewrites `default.prop`, its second step needs the file `fstab.gen` and fails with the
archive's error without it, its third step changes nothing. -/
def exampleCore : CoreRamdiskPatcher Unit Unit (CpioFile × PatcherError) :=
  { construct := fun _ _ cpio => (cpio, PatcherError.none),
    cpio := fun c => c.1,
    error := fun c => c.2,
    patchRamdisk := fun c =>
      (true, (c.1.setContents "default.prop".toList "ro.patched=1".toList, c.2)),
    useGeneratedFstabAuto := fun c =>
      match c.1.contents "fstab.gen".toList with
      | (none, cpio) => (false, (cpio, cpio.error))
      | (some _, cpio) => (true, (cpio, c.2)),
    fixChargerMountAuto := fun c => (true, c) }

/-- An archive on which every step of the example core patcher succeeds. -/
def generatedArchive : CpioFile :=
  { files := [⟨"fstab.gen".toList, systemFstab, none, none⟩], error := PatcherError.none }

/-- A freshly constructed patcher over that archive. -/
def generatedPatcher : Impl Unit Unit :=
  { pc := (), info := (), cpio := generatedArchive, error := PatcherError.none }

/-! ## Further predicates and example inputs -/

/-- The whitespace-separated fields of a line, in the words of the spec: the maximal
runs of characters that are not whitespace. -/
def fields (line : Str) : List Str :=
  let r := line.foldr
    (fun c (acc : Str × List Str) =>
      if isSpace c then ([], if acc.1 = [] then acc.2 else acc.1 :: acc.2)
      else (c :: acc.1, acc.2))
    ([], [])
  if r.1 = [] then r.2 else r.1 :: r.2

/-- The lines of a content whose second whitespace-separated field, the mount point
of an fstab entry, is `/cache`. -/
def cacheMountLines (contents : Str) : List Str :=
  (split contents).filter (fun line => (fields line)[1]? == some Cache)

/-- A mount action on the userdata block device written at column 0. -/
def columnZeroMount : Str :=
  "mount ext4 /dev/block/platform/msm_sdcc.1/by-name/userdata /data".toList

/-- An fstab whose only line has four fields. -/
def fourFieldFstab : Str := "/dev/block/x /cache ext4 defaults".toList

/-- An fstab whose only line is indented. -/
def indentedFstab : Str := "  /dev/block/x /cache ext4 defaults wait".toList

/-- A freshly constructed patcher over an archive with these two fstab files. -/
def unrecognisedPatcher : Impl Unit Unit :=
  { pc := (), info := (),
    cpio :=
      { files :=
          [⟨"fstab.four".toList, fourFieldFstab, none, none⟩,
           ⟨"fstab.indented".toList, indentedFstab, none, none⟩],
        error := PatcherError.none },
    error := PatcherError.none }

/-- The lines that the fstab pattern describes, in the words of the spec: an optional
comment (`#` and at least one more character, none a line terminator), then a device
node that starts with `/dev/` and four more fields, separated by whitespace; anything
may follow. -/
def FstabLineShape (line : Str) : Prop :=
  ∃ comment dev ws1 f3 ws2 f4 ws3 f5 ws4 f6 tail,
    (comment = [] ∨ ∃ text, text ≠ [] ∧ (∀ c ∈ text, c ≠ '\n' ∧ c ≠ '\r')
        ∧ comment = '#' :: text)
    ∧ IsField dev ∧ IsBlank ws1 ∧ IsField f3 ∧ IsBlank ws2 ∧ IsField f4 ∧ IsBlank ws3
    ∧ IsField f5 ∧ IsBlank ws4 ∧ IsField f6
    ∧ line = comment ++ ("/dev/".toList ++ (dev ++ (ws1 ++ (f3 ++ (ws2 ++ (f4 ++ (ws3
        ++ (f5 ++ (ws4 ++ (f6 ++ tail))))))))))

/-! ## `gui/mainwindow.cpp`: texts -/

/-- A `QString` is a text, as a `std::string` is: `QString::fromStdString`, the decoding
from UTF-8, is the identity on texts. -/
def fromStdString (s : Str) : Str := s

/-- `QString::toStdString`, the encoding to UTF-8, is the identity on texts. -/
def toStdString (s : Str) : Str := s

/-- `QObject::tr` with no translation installed: the source text. -/
def tr (sourceText : String) : Str := sourceText.toList

/-- `QChar::digitValue` on the digits `0` to `9`. -/
def digitValue (c : Char) : Option Nat :=
  if '0' ≤ c ∧ c ≤ '9' then some (c.toNat - '0'.toNat) else none

/-- The digits of a place marker: one digit, or two when a second digit follows. The
result is the number of the marker and the count of characters read. -/
def markerDigits : Str → Option (Nat × Nat)
  | [] => none
  | [d] =>
    match digitValue d with
    | some a => some (a, 1)
    | none => none
  | d :: e :: _ =>
    match digitValue d with
    | some a =>
      match digitValue e with
      | some b => some (10 * a + b, 2)
      | none => some (a, 1)
    | none => none

/-- The place marker that begins right after a `%`, as `QString::arg` reads it: an
optional `L`, then one or two digits. The result is the number of the marker and the
count of characters after the `%` that belong to it. -/
def placeMarker : Str → Option (Nat × Nat)
  | 'L' :: cs =>
    match markerDigits cs with
    | some (n, len) => some (n, len + 1)
    | none => none
  | cs => markerDigits cs

/-- The lowest number among the place markers of a text. -/
def lowestMarker : Str → Option Nat
  | [] => none
  | c :: cs =>
    if c = '%' then
      match placeMarker cs, lowestMarker cs with
      | some (n, _), some m => some (min n m)
      | some (n, _), none => some n
      | none, r => r
    else lowestMarker cs

/-- Replace every place marker with number `n` by the text `a`; `skip` counts the
characters of a marker just replaced that are still to be passed over. -/
def replaceMarker (n : Nat) (a : Str) : Nat → Str → Str
  | _, [] => []
  | skip + 1, _ :: cs => replaceMarker n a skip cs
  | 0, c :: cs =>
    if c = '%' then
      match placeMarker cs with
      | some (m, len) =>
        if m = n then a ++ replaceMarker n a len cs else c :: replaceMarker n a 0 cs
      | none => c :: replaceMarker n a 0 cs
    else c :: replaceMarker n a 0 cs

/-- `QString::arg(const QString &a)`: a copy of the text with every occurrence of its
lowest-numbered place marker replaced by `a`; the text itself when it has no place
marker. -/
def QString.arg (s a : Str) : Str :=
  match lowestMarker s with
  | some n => replaceMarker n a 0 s
  | none => s

/-- `QChar::isSpace`: the characters U+0009 to U+000D, U+0085 and the separators. -/
def qIsSpace (c : Char) : Bool :=
  (9 ≤ c.toNat && c.toNat ≤ 13) || c.toNat == 32 || c.toNat == 133 || c.toNat == 160
    || c.toNat == 5760 || (8192 ≤ c.toNat && c.toNat ≤ 8202) || c.toNat == 8232
    || c.toNat == 8233 || c.toNat == 8239 || c.toNat == 8287 || c.toNat == 12288

/-- `QString::trimmed`: the text without the whitespace at its start and at its end. -/
def trimmed (s : Str) : Str :=
  ((s.dropWhile qIsSpace).reverse.dropWhile qIsSpace).reverse

/-- `boost::split(result, input, boost::is_any_of(seps))`: the tokens between the
separators, empty tokens kept; an input without separator is one token. -/
def splitAnyOf (seps : Str) : Str → List Str
  | [] => [[]]
  | c :: cs =>
    if c ∈ seps then [] :: splitAnyOf seps cs
    else
      match splitAnyOf seps cs with
      | [] => [[c]]
      | l :: ls => (c :: l) :: ls

/-! ## `gui/mainwindow.cpp`: `errorToString` -/

/-- The case labels of the `switch` of `errorToString`, each with the text that its
`return` statement builds. -/
def errorToStringCases : List (ErrorCode × (PatcherError → Str)) :=
  [(ErrorCode.NoError, fun _ => tr "No error has occurred"),
   (ErrorCode.UnknownError, fun _ => tr "An unknown error has occurred"),
   (ErrorCode.PatcherCreateError, fun error =>
      QString.arg (tr "Failed to create patcher: %1") (fromStdString error.patcherId)),
   (ErrorCode.AutoPatcherCreateError, fun error =>
      QString.arg (tr "Failed to create autopatcher: %1") (fromStdString error.patcherId)),
   (ErrorCode.RamdiskPatcherCreateError, fun error =>
      QString.arg (tr "Failed to create ramdisk patcher: %1")
        (fromStdString error.patcherId)),
   (ErrorCode.FileOpenError, fun error =>
      QString.arg (tr "Failed to open file: %1") (fromStdString error.filename)),
   (ErrorCode.FileReadError, fun error =>
      QString.arg (tr "Failed to read from file: %1") (fromStdString error.filename)),
   (ErrorCode.FileWriteError, fun error =>
      QString.arg (tr "Failed to write to file: %1") (fromStdString error.filename)),
   (ErrorCode.DirectoryNotExistError, fun error =>
      QString.arg (tr "Directory does not exist: %1") (fromStdString error.filename)),
   (ErrorCode.BootImageParseError, fun _ => tr "Failed to parse boot image"),
   (ErrorCode.BootImageApplyBumpError, fun _ =>
      tr "Failed to apply Bump to the boot image"),
   (ErrorCode.BootImageApplyLokiError, fun _ =>
      tr "Failed to apply Loki to the boot image"),
   (ErrorCode.CpioFileAlreadyExistsError, fun error =>
      QString.arg (tr "File already exists in cpio archive: %1")
        (fromStdString error.filename)),
   (ErrorCode.CpioFileNotExistError, fun error =>
      QString.arg (tr "File does not exist in cpio archive: %1")
        (fromStdString error.filename)),
   (ErrorCode.ArchiveReadOpenError, fun _ => tr "Failed to open archive for reading"),
   (ErrorCode.ArchiveReadDataError, fun error =>
      QString.arg (tr "Failed to read archive data for file: %1")
        (fromStdString error.filename)),
   (ErrorCode.ArchiveReadHeaderError, fun _ => tr "Failed to read archive entry header"),
   (ErrorCode.ArchiveWriteOpenError, fun _ => tr "Failed to open archive for writing"),
   (ErrorCode.ArchiveWriteDataError, fun error =>
      QString.arg (tr "Failed to write archive data for file: %1")
        (fromStdString error.filename)),
   (ErrorCode.ArchiveWriteHeaderError, fun error =>
      QString.arg (tr "Failed to write archive header for file: %1")
        (fromStdString error.filename)),
   (ErrorCode.ArchiveCloseError, fun _ => tr "Failed to close archive"),
   (ErrorCode.ArchiveFreeError, fun _ => tr "Failed to free archive header memory"),
   (ErrorCode.XmlParseFileError, fun error =>
      QString.arg (tr "Failed to parse XML file: %1") (fromStdString error.filename)),
   (ErrorCode.OnlyZipSupported, fun error =>
      QString.arg (tr "Only ZIP files are supported by %1") (fromStdString error.patcherId)),
   (ErrorCode.OnlyBootImageSupported, fun error =>
      QString.arg (tr "Only boot images are supported by %1")
        (fromStdString error.patcherId)),
   (ErrorCode.PatchingCancelled, fun _ => tr "Patching was cancelled"),
   (ErrorCode.SystemCacheFormatLinesNotFound, fun _ =>
      tr ("The patcher could not find any /system or /cache"
        ++ "formatting lines in the updater-script file.\n\n"
        ++ "If the file is a ROM, then something failed. If the"
        ++ "file is not a ROM (eg. kernel or mod), it doesn\x27t"
        ++ "need to be patched."))]

/-- The function `errorToString`: the text of the case that the `switch` selects for
the error code; nothing when no case is selected, where the source reaches
`default: assert(false)`. -/
def errorToString (error : PatcherError) : Option Str :=
  match errorToStringCases.lookup error.errorCode with
  | some text => some (text error)
  | none => none

/-- The message of each error kind, in the words of the spec: a fixed text, followed
for the kinds that carry one by the filename or by the patcher id of the error. -/
def expectedMessage (error : PatcherError) : Str :=
  match error.errorCode with
  | ErrorCode.NoError => "No error has occurred".toList
  | ErrorCode.UnknownError => "An unknown error has occurred".toList
  | ErrorCode.PatcherCreateError => "Failed to create patcher: ".toList ++ error.patcherId
  | ErrorCode.AutoPatcherCreateError =>
    "Failed to create autopatcher: ".toList ++ error.patcherId
  | ErrorCode.RamdiskPatcherCreateError =>
    "Failed to create ramdisk patcher: ".toList ++ error.patcherId
  | ErrorCode.FileOpenError => "Failed to open file: ".toList ++ error.filename
  | ErrorCode.FileReadError => "Failed to read from file: ".toList ++ error.filename
  | ErrorCode.FileWriteError => "Failed to write to file: ".toList ++ error.filename
  | ErrorCode.DirectoryNotExistError => "Directory does not exist: ".toList ++ error.filename
  | ErrorCode.BootImageParseError => "Failed to parse boot image".toList
  | ErrorCode.BootImageApplyBumpError => "Failed to apply Bump to the boot image".toList
  | ErrorCode.BootImageApplyLokiError => "Failed to apply Loki to the boot image".toList
  | ErrorCode.CpioFileAlreadyExistsError =>
    "File already exists in cpio archive: ".toList ++ error.filename
  | ErrorCode.CpioFileNotExistError =>
    "File does not exist in cpio archive: ".toList ++ error.filename
  | ErrorCode.ArchiveReadOpenError => "Failed to open archive for reading".toList
  | ErrorCode.ArchiveReadDataError =>
    "Failed to read archive data for file: ".toList ++ error.filename
  | ErrorCode.ArchiveReadHeaderError => "Failed to read archive entry header".toList
  | ErrorCode.ArchiveWriteOpenError => "Failed to open archive for writing".toList
  | ErrorCode.ArchiveWriteDataError =>
    "Failed to write archive data for file: ".toList ++ error.filename
  | ErrorCode.ArchiveWriteHeaderError =>
    "Failed to write archive header for file: ".toList ++ error.filename
  | ErrorCode.ArchiveCloseError => "Failed to close archive".toList
  | ErrorCode.ArchiveFreeError => "Failed to free archive header memory".toList
  | ErrorCode.XmlParseFileError => "Failed to parse XML file: ".toList ++ error.filename
  | ErrorCode.OnlyZipSupported => "Only ZIP files are supported by ".toList ++ error.patcherId
  | ErrorCode.OnlyBootImageSupported =>
    "Only boot images are supported by ".toList ++ error.patcherId
  | ErrorCode.PatchingCancelled => "Patching was cancelled".toList
  | ErrorCode.SystemCacheFormatLinesNotFound =>
    ("The patcher could not find any /system or /cacheformatting lines in the "
      ++ "updater-script file.\n\nIf the file is a ROM, then something failed. If thefile "
      ++ "is not a ROM (eg. kernel or mod), it doesn\x27tneed to be patched.").toList

/-- The error kinds whose message carries the filename of the error. -/
def filenameKinds : List ErrorCode :=
  [ErrorCode.FileOpenError, ErrorCode.FileReadError, ErrorCode.FileWriteError,
   ErrorCode.DirectoryNotExistError, ErrorCode.CpioFileAlreadyExistsError,
   ErrorCode.CpioFileNotExistError, ErrorCode.ArchiveReadDataError,
   ErrorCode.ArchiveWriteDataError, ErrorCode.ArchiveWriteHeaderError,
   ErrorCode.XmlParseFileError]

/-- The error kinds whose message carries the patcher id of the error. -/
def patcherIdKinds : List ErrorCode :=
  [ErrorCode.PatcherCreateError, ErrorCode.AutoPatcherCreateError,
   ErrorCode.RamdiskPatcherCreateError, ErrorCode.OnlyZipSupported,
   ErrorCode.OnlyBootImageSupported]

/-! ## `gui/mainwindow.cpp`: `PatcherTask::patch` -/

/-- The class `Patcher` is declared outside the given sources: its state is a
parameter `P`, the job descriptor a parameter `FI`, and these are the members that
`PatcherTask::patch` uses. The callbacks passed to `patchFile` only emit progress
signals and are left out. -/
structure Patcher (P FI : Type) where
  setFileInfo : P → Option FI → P
  patchFile : P → Bool × P
  newFilePath : P → Str
  error : P → PatcherError

/-- The arguments of the signal `finished(newFile, failed, errorMessage)`. -/
structure Finished where
  newFile : Str
  failed : Bool
  errorMessage : Str
  deriving DecidableEq, Repr

/-- The slot `PatcherTask::patch`: the `finished` signal that it emits and the state
in which it leaves the patcher; nothing when `errorToString` reaches its assertion. -/
def PatcherTask.patch {P FI : Type} (ops : Patcher P FI) (patcher : P) (info : FI) :
    Option (Finished × P) :=
  let p1 := ops.setFileInfo patcher (some info)
  let result := ops.patchFile p1
  let ret := result.1
  let p2 := result.2
  let newFile := fromStdString (ops.newFilePath p2)
  let p3 := ops.setFileInfo p2 none
  if !ret then
    match errorToString (ops.error p3) with
    | some message => some (⟨[], true, message⟩, p3)
    | none => none
  else some (⟨newFile, false, []⟩, p3)

/-! ## `gui/mainwindow.cpp`: `MainWindow::startPatching` -/

/-- Modelled from the spec: the class `PatchInfo` is declared outside the given
sources. It is a profile with an ordered list of autopatcher names with arguments, a
`hasBootImage` flag, boot-image entry names, a ramdisk name and a `deviceCheck`
flag. -/
structure PatchInfo where
  autoPatchers : List (Str × List (Str × Str))
  hasBootImage : Bool
  ramdisk : Str
  bootImages : List Str
  deviceCheck : Bool
  deriving DecidableEq, Repr

/-- Modelled from the spec: the member `addAutoPatcher(name, args)`, which the given
sources call but do not define, adds an entry at the end of the ordered list. -/
def PatchInfo.addAutoPatcher (self : PatchInfo) (name : Str) (args : List (Str × Str)) :
    PatchInfo :=
  { self with autoPatchers := self.autoPatchers ++ [(name, args)] }

/-- Modelled from the spec: the setter `setHasBootImage`. -/
def PatchInfo.setHasBootImage (self : PatchInfo) (hasBootImage : Bool) : PatchInfo :=
  { self with hasBootImage := hasBootImage }

/-- Modelled from the spec: the setter `setRamdisk`. -/
def PatchInfo.setRamdisk (self : PatchInfo) (ramdisk : Str) : PatchInfo :=
  { self with ramdisk := ramdisk }

/-- Modelled from the spec: the setter `setBootImages`. -/
def PatchInfo.setBootImages (self : PatchInfo) (bootImages : List Str) : PatchInfo :=
  { self with bootImages := bootImages }

/-- Modelled from the spec: the setter `setDeviceCheck`. -/
def PatchInfo.setDeviceCheck (self : PatchInfo) (deviceCheck : Bool) : PatchInfo :=
  { self with deviceCheck := deviceCheck }

/-- The part of `MainWindowPrivate`, declared outside the given sources, that
`startPatching` reads to choose the profile: the support flags, the index of the
preset selector, the states of the two checkboxes, the text of the boot-image line
edit, the id of the selected device, the presets of the registry and the current
profile. -/
structure MainWindowPrivate where
  supported : Nat
  presetSelIndex : Int
  hasBootImageCb : Bool
  bootImageLe : Str
  deviceCheckCb : Bool
  deviceId : Str
  patchInfos : List PatchInfo
  patchInfo : Option PatchInfo
  deriving DecidableEq, Repr

/-- The profile that `startPatching` builds for an unsupported file with the preset
`Custom`: the block after `new mbp::PatchInfo()`, whose result `fresh` is a
parameter. -/
def customPatchInfo (fresh : PatchInfo) (d : MainWindowPrivate) : PatchInfo :=
  let patchInfo := fresh.addAutoPatcher "StandardPatcher".toList []
  let patchInfo := patchInfo.setHasBootImage d.hasBootImageCb
  let patchInfo :=
    if patchInfo.hasBootImage then
      let patchInfo := patchInfo.setRamdisk (d.deviceId ++ "/default".toList)
      let text := trimmed d.bootImageLe
      if !text.isEmpty then
        patchInfo.setBootImages (splitAnyOf ",".toList (toStdString text))
      else patchInfo
    else patchInfo
  patchInfo.setDeviceCheck (!d.deviceCheckCb)

/-- The member `MainWindow::startPatching`, as far as it chooses the profile of the
job: the profile `d->patchInfo` after the call. A preset index outside the registry
leaves no profile. -/
def MainWindow.startPatching (fresh : PatchInfo) (d : MainWindowPrivate) : MainWindowPrivate :=
  if d.supported = 0 then
    if d.presetSelIndex = 0 then
      { d with patchInfo := some (customPatchInfo fresh d) }
    else if 1 ≤ d.presetSelIndex then
      { d with patchInfo := d.patchInfos[(d.presetSelIndex - 1).toNat]? }
    else { d with patchInfo := none }
  else d

/-! ## Example inputs for `gui/mainwindow.cpp` -/

/-- An example patcher, to instantiate the statements about `PatcherTask::patch`: its
state is the filename of the job, if any; patching succeeds on `rom.zip` only, and
fails otherwise with a file-open error that names the file. -/
def exampleOps : Patcher (Option Str) Str :=
  { setFileInfo := fun _ info => info,
    patchFile := fun p => (p == some "rom.zip".toList, p),
    newFilePath := fun p => p.getD [] ++ "_patched".toList,
    error := fun _ => ⟨ErrorCode.FileOpenError, "other.zip".toList, []⟩ }

/-- A default-constructed profile for the examples. -/
def freshPatchInfo : PatchInfo :=
  { autoPatchers := [], hasBootImage := true, ramdisk := [], bootImages := [],
    deviceCheck := true }

/-- The state of the window for an unsupported file, the preset `Custom`, the device
`trelte`, both checkboxes checked and a boot-image text with surrounding blanks. -/
def customWindow : MainWindowPrivate :=
  { supported := 0, presetSelIndex := 0, hasBootImageCb := true,
    bootImageLe := " boot.img,recovery.img ".toList, deviceCheckCb := true,
    deviceId := "trelte".toList, patchInfos := [], patchInfo := none }

/-! ## Further example inputs and the error contract of the core patcher -/

/-- A freshly constructed patcher over an archive that holds the init script only. -/
def initOnlyPatcher : Impl Unit Unit :=
  { pc := (), info := (),
    cpio :=
      { files := [⟨"init.rc".toList, initScript, some 488, some (0, 0)⟩],
        error := PatcherError.none },
    error := PatcherError.none }

/-- An fstab whose only cache entry is commented out with no blank after the `#`. -/
def hashDevFstab : Str := "#/dev/block/x /cache ext4 defaults wait".toList

theorem run_cat_cons (r : Re) (rs : List Re) (k : MState → Option MState) (s : MState) :
    (Re.cat (r :: rs)).run k s = r.run ((Re.cat rs).run k) s := rfl

theorem run_cat_nil (k : MState → Option MState) (s : MState) :
    (Re.cat []).run k s = k s := rfl

theorem run_str_isSome (w : Str) (k : MState → Option MState) (p : Nat) (s : Str)
    (c : Nat → Option Str) :
    ((Re.str w).run k ⟨p, s, c⟩).isSome = true
      ↔ ∃ s', s = w ++ s' ∧ (k ⟨p + w.length, s', c⟩).isSome = true := by
  induction w generalizing p s with
  | nil =>
    show (k ⟨p, s, c⟩).isSome = true ↔ _
    constructor
    · intro h; exact ⟨s, rfl, h⟩
    · rintro ⟨s', hs, h⟩
      simp only [List.nil_append] at hs
      subst hs
      exact h
  | cons a w ih =>
    show ((Re.one (CharClass.lit a)).run ((Re.str w).run k) ⟨p, s, c⟩).isSome = true ↔ _
    cases s with
    | nil => simp [Re.run]
    | cons x xs =>
      simp only [Re.run, CharClass.test]
      by_cases hx : x = a
      · subst hx
        simp only [beq_self_eq_true, if_true, ih]
        constructor
        · rintro ⟨s', hs, h⟩
          refine ⟨s', by rw [hs]; rfl, ?_⟩
          rw [List.length_cons, Nat.add_comm w.length 1, ← Nat.add_assoc]
          exact h
        · rintro ⟨s', hs, h⟩
          simp only [List.cons_append, List.cons.injEq, true_and] at hs
          refine ⟨s', hs, ?_⟩
          rw [List.length_cons, Nat.add_comm w.length 1, ← Nat.add_assoc] at h
          exact h
      · have hne : (x == a) = false := by simpa using hx
        simp only [hne]
        constructor
        · intro h; exact absurd h (by simp)
        · rintro ⟨s', hs, _⟩
          simp only [List.cons_append, List.cons.injEq] at hs
          exact absurd hs.1 hx

theorem starK_isSome (a : CharClass) (k : MState → Option MState) (p : Nat) (s : Str)
    (c : Nat → Option Str) :
    (starK a k p c s).isSome = true
      ↔ ∃ xs s', s = xs ++ s' ∧ (∀ x ∈ xs, a.test x = true)
          ∧ (k ⟨p + xs.length, s', c⟩).isSome = true := by
  induction s generalizing p with
  | nil =>
    simp only [starK]
    constructor
    · intro h; exact ⟨[], [], rfl, by simp, h⟩
    · rintro ⟨xs, s', hs, _, h⟩
      have h1 : xs = [] := (List.append_eq_nil.1 hs.symm).1
      have h2 : s' = [] := (List.append_eq_nil.1 hs.symm).2
      subst h1; subst h2
      exact h
  | cons y ys ih =>
    rw [starK]
    by_cases hy : a.test y = true
    · rw [if_pos hy]
      have hsplit : (match starK a k (p + 1) c ys with
            | some m => some m
            | none => k ⟨p, y :: ys, c⟩).isSome = true
          ↔ (starK a k (p + 1) c ys).isSome = true ∨ (k ⟨p, y :: ys, c⟩).isSome = true := by
        cases starK a k (p + 1) c ys <;> simp
      rw [hsplit, ih]
      constructor
      · rintro (⟨xs, s', hs, hall, h⟩ | h)
        · refine ⟨y :: xs, s', by rw [hs]; rfl, ?_, ?_⟩
          · intro x hx
            rcases List.mem_cons.1 hx with h1 | h1
            · rw [h1]; exact hy
            · exact hall x h1
          · rw [List.length_cons, Nat.add_comm xs.length 1, ← Nat.add_assoc]; exact h
        · exact ⟨[], y :: ys, rfl, by simp, h⟩
      · rintro ⟨xs, s', hs, hall, h⟩
        cases xs with
        | nil =>
          simp only [List.nil_append] at hs
          subst hs
          exact Or.inr h
        | cons x xs =>
          simp only [List.cons_append, List.cons.injEq] at hs
          refine Or.inl ⟨xs, s', hs.2, fun z hz => hall z (List.mem_cons_of_mem _ hz), ?_⟩
          rw [List.length_cons, Nat.add_comm xs.length 1, ← Nat.add_assoc] at h
          exact h
    · rw [if_neg hy]
      constructor
      · intro h; exact ⟨[], y :: ys, rfl, by simp, h⟩
      · rintro ⟨xs, s', hs, hall, h⟩
        cases xs with
        | nil =>
          simp only [List.nil_append] at hs
          subst hs
          exact h
        | cons x xs =>
          simp only [List.cons_append, List.cons.injEq] at hs
          exact absurd (hs.1 ▸ hall x (List.mem_cons_self _ _)) hy

theorem run_star_isSome (a : CharClass) (k : MState → Option MState) (p : Nat) (s : Str)
    (c : Nat → Option Str) :
    ((Re.star a).run k ⟨p, s, c⟩).isSome = true
      ↔ ∃ xs s', s = xs ++ s' ∧ (∀ x ∈ xs, a.test x = true)
          ∧ (k ⟨p + xs.length, s', c⟩).isSome = true :=
  starK_isSome a k p s c

theorem run_plus_isSome (a : CharClass) (k : MState → Option MState) (p : Nat) (s : Str)
    (c : Nat → Option Str) :
    ((Re.plus a).run k ⟨p, s, c⟩).isSome = true
      ↔ ∃ xs s', xs ≠ [] ∧ s = xs ++ s' ∧ (∀ x ∈ xs, a.test x = true)
          ∧ (k ⟨p + xs.length, s', c⟩).isSome = true := by
  cases s with
  | nil =>
    simp only [Re.run]
    constructor
    · intro h; exact absurd h (by simp)
    · rintro ⟨xs, s', hne, hs, _⟩
      exact absurd (List.append_eq_nil.1 hs.symm).1 hne
  | cons y ys =>
    simp only [Re.run]
    by_cases hy : a.test y = true
    · rw [if_pos hy, starK_isSome]
      constructor
      · rintro ⟨xs, s', hs, hall, h⟩
        refine ⟨y :: xs, s', by simp, by rw [hs]; rfl, ?_, ?_⟩
        · intro x hx
          rcases List.mem_cons.1 hx with h1 | h1
          · rw [h1]; exact hy
          · exact hall x h1
        · rw [List.length_cons, Nat.add_comm xs.length 1, ← Nat.add_assoc]; exact h
      · rintro ⟨xs, s', hne, hs, hall, h⟩
        cases xs with
        | nil => exact absurd rfl hne
        | cons x xs =>
          simp only [List.cons_append, List.cons.injEq] at hs
          refine ⟨xs, s', hs.2, fun z hz => hall z (List.mem_cons_of_mem _ hz), ?_⟩
          rw [List.length_cons, Nat.add_comm xs.length 1, ← Nat.add_assoc] at h
          exact h
    · rw [if_neg hy]
      constructor
      · intro h; exact absurd h (by simp)
      · rintro ⟨xs, s', hne, hs, hall, _⟩
        cases xs with
        | nil => exact absurd rfl hne
        | cons x xs =>
          simp only [List.cons_append, List.cons.injEq] at hs
          exact absurd (hs.1 ▸ hall x (List.mem_cons_self _ _)) hy

theorem run_bol_zero (k : MState → Option MState) (s : Str) (c : Nat → Option Str) :
    Re.bol.run k ⟨0, s, c⟩ = k ⟨0, s, c⟩ := by
  simp [Re.run]

theorem run_bol_succ (k : MState → Option MState) (p : Nat) (s : Str)
    (c : Nat → Option Str) : Re.bol.run k ⟨p + 1, s, c⟩ = none := by
  simp [Re.run]

theorem searchFrom_bol_pos (rs : List Re) (p : Nat) (s : Str) :
    searchFrom (Re.cat (Re.bol :: rs)) (p + 1) s = none := by
  induction s generalizing p with
  | nil => rw [searchFrom, run_cat_cons, run_bol_succ]
  | cons x xs ih => rw [searchFrom, run_cat_cons, run_bol_succ, ih]

theorem searchFrom_bol_zero (rs : List Re) (s : Str) :
    searchFrom (Re.cat (Re.bol :: rs)) 0 s = (Re.cat rs).run some ⟨0, s, noCaps⟩ := by
  cases s with
  | nil => rw [searchFrom, run_cat_cons, run_bol_zero]
  | cons x xs =>
    rw [searchFrom, run_cat_cons, run_bol_zero, searchFrom_bol_pos]
    cases (Re.cat rs).run some ⟨0, x :: xs, noCaps⟩ <;> rfl

theorem isSome_regex_search (line : Str) (re : Re) :
    (regex_search line re).isSome = (searchFrom re 0 line).isSome := by
  unfold regex_search
  cases searchFrom re 0 line <;> rfl

theorem any_test_iff (c : Char) : CharClass.any.test c = true ↔ c ≠ '\n' ∧ c ≠ '\r' := by
  simp [CharClass.test]

theorem search_action_isSome (w t line : Str) :
    (regex_search line
      (Re.cat [Re.bol, Re.plus CharClass.space, Re.str w, Re.plus CharClass.space,
        Re.str "/dev/".toList, Re.star CharClass.any, Re.str t])).isSome = true
      ↔ ∃ ws ws' mid tail, IsBlank ws ∧ IsBlank ws' ∧ (∀ c ∈ mid, c ≠ '\n' ∧ c ≠ '\r')
          ∧ line = ws ++ w ++ ws' ++ "/dev/".toList ++ mid ++ t ++ tail := by
  rw [isSome_regex_search, searchFrom_bol_zero]
  simp only [run_cat_cons, run_cat_nil, run_plus_isSome, run_str_isSome, run_star_isSome,
    Option.isSome_some, and_true]
  constructor
  · rintro ⟨ws, s1, hws, rfl, hwsall, s2, rfl, ws', s3, hws', rfl, hws'all, s4, rfl, mid, s5,
      rfl, hmid, tail, rfl⟩
    refine ⟨ws, ws', mid, tail, ⟨hws, hwsall⟩, ⟨hws', hws'all⟩,
      fun c hc => (any_test_iff c).1 (hmid c hc), ?_⟩
    simp only [List.append_assoc]
  · rintro ⟨ws, ws', mid, tail, ⟨hws, hwsall⟩, ⟨hws', hws'all⟩, hmid, rfl⟩
    refine ⟨ws, _, hws, ?_, hwsall, _, rfl, ws', _, hws', rfl, hws'all, _, rfl, mid, _, rfl,
      fun c hc => (any_test_iff c).2 (hmid c hc), tail, rfl⟩
    simp only [List.append_assoc]

theorem search_mount_isSome (t line : Str) :
    (regex_search line
      (Re.cat [Re.bol, Re.plus CharClass.space, Re.str "mount".toList,
        Re.plus CharClass.space, Re.str "ext4".toList, Re.plus CharClass.space,
        Re.str "/dev/".toList, Re.star CharClass.any, Re.str t])).isSome = true
      ↔ ∃ ws b ws' mid tail, IsBlank ws ∧ IsBlank b ∧ IsBlank ws'
          ∧ (∀ c ∈ mid, c ≠ '\n' ∧ c ≠ '\r')
          ∧ line = ws ++ ("mount".toList ++ b ++ "ext4".toList) ++ ws' ++ "/dev/".toList
              ++ mid ++ t ++ tail := by
  rw [isSome_regex_search, searchFrom_bol_zero]
  simp only [run_cat_cons, run_cat_nil, run_plus_isSome, run_str_isSome, run_star_isSome,
    Option.isSome_some, and_true]
  constructor
  · rintro ⟨ws, s1, hws, rfl, hwsall, s2, rfl, b, s3, hb, rfl, hball, s4, rfl, ws', s5, hws',
      rfl, hws'all, s6, rfl, mid, s7, rfl, hmid, tail, rfl⟩
    refine ⟨ws, b, ws', mid, tail, ⟨hws, hwsall⟩, ⟨hb, hball⟩, ⟨hws', hws'all⟩,
      fun c hc => (any_test_iff c).1 (hmid c hc), ?_⟩
    simp only [List.append_assoc]
  · rintro ⟨ws, b, ws', mid, tail, ⟨hws, hwsall⟩, ⟨hb, hball⟩, ⟨hws', hws'all⟩, hmid, rfl⟩
    refine ⟨ws, _, hws, ?_, hwsall, _, rfl, b, _, hb, rfl, hball, _, rfl, ws', _, hws', rfl,
      hws'all, _, rfl, mid, _, rfl, fun c hc => (any_test_iff c).2 (hmid c hc), tail, rfl⟩
    simp only [List.append_assoc]

theorem isManualMount_iff (line : Str) : isManualMount line = true ↔ ManualMountShape line := by
  unfold isManualMount
  simp only [Bool.or_eq_true]
  have a1 := search_action_isSome "wait".toList "/cache".toList line
  have a2 := search_action_isSome "check_fs".toList "/cache".toList line
  have a3 := search_mount_isSome "/cache".toList line
  have a4 := search_action_isSome "wait".toList "/userdata".toList line
  have a5 := search_action_isSome "check_fs".toList "/userdata".toList line
  have a6 := search_mount_isSome "/userdata".toList line
  unfold reWaitCache reCheckFsCache reMountCache reWaitData reCheckFsData reMountData
  rw [a1, a2, a3, a4, a5, a6]
  unfold ManualMountShape
  constructor
  · rintro (((((h | h) | h) | h) | h) | h)
    · obtain ⟨ws, ws', mid, tail, h1, h2, h3, h4⟩ := h
      exact ⟨ws, _, ws', mid, _, tail, h1, Or.inl rfl, h2, h3, Or.inl rfl, h4⟩
    · obtain ⟨ws, ws', mid, tail, h1, h2, h3, h4⟩ := h
      exact ⟨ws, _, ws', mid, _, tail, h1, Or.inr (Or.inl rfl), h2, h3, Or.inl rfl, h4⟩
    · obtain ⟨ws, b, ws', mid, tail, h1, hb, h2, h3, h4⟩ := h
      exact ⟨ws, _, ws', mid, _, tail, h1, Or.inr (Or.inr ⟨b, hb, rfl⟩), h2, h3, Or.inl rfl, h4⟩
    · obtain ⟨ws, ws', mid, tail, h1, h2, h3, h4⟩ := h
      exact ⟨ws, _, ws', mid, _, tail, h1, Or.inl rfl, h2, h3, Or.inr rfl, h4⟩
    · obtain ⟨ws, ws', mid, tail, h1, h2, h3, h4⟩ := h
      exact ⟨ws, _, ws', mid, _, tail, h1, Or.inr (Or.inl rfl), h2, h3, Or.inr rfl, h4⟩
    · obtain ⟨ws, b, ws', mid, tail, h1, hb, h2, h3, h4⟩ := h
      exact ⟨ws, _, ws', mid, _, tail, h1, Or.inr (Or.inr ⟨b, hb, rfl⟩), h2, h3, Or.inr rfl, h4⟩
  · rintro ⟨ws, action, ws', mid, target, tail, h1, ha, h2, h3, ht, h4⟩
    rcases ha with rfl | rfl | ⟨b, hb, rfl⟩ <;> rcases ht with rfl | rfl
    · exact Or.inl (Or.inl (Or.inl (Or.inl (Or.inl ⟨ws, ws', mid, tail, h1, h2, h3, h4⟩))))
    · exact Or.inl (Or.inl (Or.inr ⟨ws, ws', mid, tail, h1, h2, h3, h4⟩))
    · exact Or.inl (Or.inl (Or.inl (Or.inl (Or.inr ⟨ws, ws', mid, tail, h1, h2, h3, h4⟩))))
    · exact Or.inl (Or.inr ⟨ws, ws', mid, tail, h1, h2, h3, h4⟩)
    · exact Or.inl (Or.inl (Or.inl (Or.inr ⟨ws, b, ws', mid, tail, h1, hb, h2, h3, h4⟩)))
    · exact Or.inr ⟨ws, b, ws', mid, tail, h1, hb, h2, h3, h4⟩

theorem starK_greedy (a : CharClass) (k : MState → Option MState) (xs s' : Str) (p : Nat)
    (c : Nat → Option Str) (m : MState) (hall : ∀ x ∈ xs, a.test x = true)
    (hstop : stopsAt a s') (hk : k ⟨p + xs.length, s', c⟩ = some m) :
    starK a k p c (xs ++ s') = some m := by
  induction xs generalizing p with
  | nil =>
    simp only [List.nil_append, List.length_nil, Nat.add_zero] at hk ⊢
    rcases hstop with rfl | ⟨y, ys, rfl, hy⟩
    · rw [starK]; exact hk
    · rw [starK, if_neg (by rw [hy]; decide)]; exact hk
  | cons x xs ih =>
    rw [List.cons_append, starK, if_pos (hall x (List.mem_cons_self _ _))]
    rw [ih (p + 1) (fun z hz => hall z (List.mem_cons_of_mem _ hz))]
    rw [List.length_cons, Nat.add_comm xs.length 1, ← Nat.add_assoc] at hk
    exact hk

theorem run_plus_greedy (a : CharClass) (k : MState → Option MState) (xs s' : Str) (p : Nat)
    (c : Nat → Option Str) (m : MState) (hne : xs ≠ [])
    (hall : ∀ x ∈ xs, a.test x = true) (hstop : stopsAt a s')
    (hk : k ⟨p + xs.length, s', c⟩ = some m) :
    (Re.plus a).run k ⟨p, xs ++ s', c⟩ = some m := by
  cases xs with
  | nil => exact absurd rfl hne
  | cons x xs =>
    simp only [Re.run, List.cons_append]
    rw [if_pos (hall x (List.mem_cons_self _ _))]
    apply starK_greedy a k xs s' (p + 1) c m
      (fun z hz => hall z (List.mem_cons_of_mem _ hz)) hstop
    rw [List.length_cons, Nat.add_comm xs.length 1, ← Nat.add_assoc] at hk
    exact hk

theorem run_str_append (w s' : Str) (k : MState → Option MState) (p : Nat)
    (c : Nat → Option Str) :
    (Re.str w).run k ⟨p, w ++ s', c⟩ = k ⟨p + w.length, s', c⟩ := by
  induction w generalizing p with
  | nil => rfl
  | cons a w ih =>
    show (Re.one (CharClass.lit a)).run ((Re.str w).run k) ⟨p, a :: (w ++ s'), c⟩ = _
    simp only [Re.run, CharClass.test, beq_self_eq_true, if_true]
    rw [ih, List.length_cons, Nat.add_comm w.length 1, ← Nat.add_assoc]

theorem take_of_add_sub (xs s' : Str) (p : Nat) :
    (xs ++ s').take (p + xs.length - p) = xs := by
  rw [Nat.add_sub_cancel_left, List.take_left']
  rfl

theorem run_group_plus_greedy (i : Nat) (a : CharClass) (k : MState → Option MState)
    (xs s' : Str) (p : Nat) (c : Nat → Option Str) (m : MState) (hne : xs ≠ [])
    (hall : ∀ x ∈ xs, a.test x = true) (hstop : stopsAt a s')
    (hk : k ⟨p + xs.length, s', setCap c i xs⟩ = some m) :
    (Re.group i (Re.plus a)).run k ⟨p, xs ++ s', c⟩ = some m := by
  rw [Re.run]
  apply run_plus_greedy a _ xs s' p c m hne hall hstop
  show k ⟨p + xs.length, s', setCap c i ((xs ++ s').take (p + xs.length - p))⟩ = some m
  rw [take_of_add_sub]
  exact hk

theorem stopsAt_nonSpace_of_blank (ws t : Str) (h : IsBlank ws) :
    stopsAt CharClass.nonSpace (ws ++ t) := by
  obtain ⟨hne, hall⟩ := h
  cases ws with
  | nil => exact absurd rfl hne
  | cons y ys =>
    exact Or.inr ⟨y, ys ++ t, rfl, by simp [CharClass.test, hall y (List.mem_cons_self _ _)]⟩

theorem stopsAt_space_of_field (f t : Str) (h : IsField f) :
    stopsAt CharClass.space (f ++ t) := by
  obtain ⟨hne, hall⟩ := h
  cases f with
  | nil => exact absurd rfl hne
  | cons y ys =>
    exact Or.inr ⟨y, ys ++ t, rfl, by simp [CharClass.test, hall y (List.mem_cons_self _ _)]⟩

theorem isNonCommentCacheLine_of_shape (line : Str) (h : CacheEntryShape line) :
    isNonCommentCacheLine line = true := by
  obtain ⟨dev, ws1, ws2, type, ws3, mountArgs, ws4, voldArgs, tail, hdev, hws1, hws2, htype,
    hws3, hmount, hws4, hvold, htail, rfl⟩ := h
  have hcache : IsField "/cache".toList := ⟨by decide, by decide⟩
  have fieldTest : ∀ f : Str, IsField f → ∀ x ∈ f, CharClass.nonSpace.test x = true := by
    intro f hf x hx
    simp [CharClass.test, hf.2 x hx]
  have blankTest : ∀ f : Str, IsBlank f → ∀ x ∈ f, CharClass.space.test x = true := by
    intro f hf x hx
    simp [CharClass.test, hf.2 x hx]
  have hlast : stopsAt CharClass.nonSpace tail := by
    rcases htail with rfl | ⟨y, ys, rfl, hy⟩
    · exact Or.inl rfl
    · exact Or.inr ⟨y, ys, rfl, by simp [CharClass.test, hy]⟩
  have hsearch : ∃ m, searchFrom FstabRegex 0
      ("/dev/".toList ++ (dev ++ (ws1 ++ ("/cache".toList ++ (ws2 ++ (type ++ (ws3
        ++ (mountArgs ++ (ws4 ++ (voldArgs ++ tail)))))))))) = some m
      ∧ m.caps 1 = none ∧ m.caps 3 = some "/cache".toList := by
    refine Exists.intro ?m ⟨?eq, ?c1, ?c3⟩
    case eq =>
      unfold FstabRegex
      rw [searchFrom_bol_zero, run_cat_cons]
      have hskip : ∀ (k : MState → Option MState) (s : Str),
          (Re.opt (Re.group 1 (Re.seq (Re.one (CharClass.lit '#'))
            (Re.plus CharClass.any)))).run k ⟨0, "/dev/".toList ++ s, noCaps⟩
          = k ⟨0, "/dev/".toList ++ s, noCaps⟩ := by
        intro k s
        simp [Re.run, CharClass.test]
      rw [hskip, run_cat_cons]
      rw [Re.run, Re.run, run_str_append]
      apply run_plus_greedy _ _ dev _ _ _ _ hdev.1 (fieldTest dev hdev)
        (stopsAt_nonSpace_of_blank _ _ hws1)
      dsimp only
      rw [run_cat_cons]
      apply run_plus_greedy _ _ ws1 _ _ _ _ hws1.1 (blankTest ws1 hws1)
        (stopsAt_space_of_field _ _ hcache)
      rw [run_cat_cons]
      apply run_group_plus_greedy _ _ _ "/cache".toList _ _ _ _ hcache.1
        (fieldTest _ hcache) (stopsAt_nonSpace_of_blank _ _ hws2)
      rw [run_cat_cons]
      apply run_plus_greedy _ _ ws2 _ _ _ _ hws2.1 (blankTest ws2 hws2)
        (stopsAt_space_of_field _ _ htype)
      rw [run_cat_cons]
      apply run_group_plus_greedy _ _ _ type _ _ _ _ htype.1
        (fieldTest _ htype) (stopsAt_nonSpace_of_blank _ _ hws3)
      rw [run_cat_cons]
      apply run_plus_greedy _ _ ws3 _ _ _ _ hws3.1 (blankTest ws3 hws3)
        (stopsAt_space_of_field _ _ hmount)
      rw [run_cat_cons]
      apply run_group_plus_greedy _ _ _ mountArgs _ _ _ _ hmount.1
        (fieldTest _ hmount) (stopsAt_nonSpace_of_blank _ _ hws4)
      rw [run_cat_cons]
      apply run_plus_greedy _ _ ws4 _ _ _ _ hws4.1 (blankTest ws4 hws4)
        (stopsAt_space_of_field _ _ hvold)
      rw [run_cat_cons]
      apply run_group_plus_greedy _ _ _ voldArgs _ _ _ _ hvold.1
        (fieldTest _ hvold) hlast
      exact rfl
    case c1 => simp [setCap, noCaps]
    case c3 => simp [setCap, noCaps]
  obtain ⟨m, hm, h1, h3⟩ := hsearch
  unfold isNonCommentCacheLine regex_search
  rw [hm]
  simp [h1, subMatch, h3, Cache]

/-! ## Lemmas on `split` and `join` -/

theorem split_cons (c : Char) (cs : Str) :
    split (c :: cs) =
      if c = '\n' then [] :: split cs
      else match split cs with
        | [] => [[c]]
        | l :: ls => (c :: l) :: ls := by
  rw [split]

theorem split_ne_nil (c : Str) : split c ≠ [] := by
  cases c with
  | nil => simp [split]
  | cons a cs =>
    unfold split
    split
    · simp
    · split <;> simp

theorem join_cons_of_ne_nil (l : Str) (ls : List Str) (h : ls ≠ []) :
    join (l :: ls) = l ++ '\n' :: join ls := by
  cases ls with
  | nil => exact absurd rfl h
  | cons m ms => rfl

theorem join_split (c : Str) : join (split c) = c := by
  induction c with
  | nil => rfl
  | cons a cs ih =>
    unfold split
    split
    · next h => rw [join_cons_of_ne_nil _ _ (split_ne_nil cs), ih, h]; rfl
    · split
      · next h => exact absurd h (split_ne_nil cs)
      · next l ls h =>
        rw [h] at ih
        cases ls with
        | nil => simp [join] at ih ⊢; exact ih
        | cons m ms =>
          simp only [join] at ih ⊢
          rw [← ih]; rfl

theorem not_mem_of_mem_split (c : Str) : ∀ l ∈ split c, '\n' ∉ l := by
  induction c with
  | nil => simp [split]
  | cons a cs ih =>
    unfold split
    split
    · intro l hl
      rcases List.mem_cons.1 hl with h | h
      · simp [h]
      · exact ih l h
    · next hne =>
      split
      · intro l hl
        simp at hl
        simp [hl]; exact fun h => hne h.symm
      · next l0 ls h =>
        rw [h] at ih
        intro l hl
        rcases List.mem_cons.1 hl with h1 | h1
        · rw [h1]
          intro hmem
          rcases List.mem_cons.1 hmem with h2 | h2
          · exact hne h2.symm
          · exact ih l0 (List.mem_cons_self _ _) h2
        · exact ih l (List.mem_cons_of_mem _ h1)

theorem split_of_not_mem (l : Str) (h : '\n' ∉ l) : split l = [l] := by
  induction l with
  | nil => rfl
  | cons a cs ih =>
    have ha : a ≠ '\n' := fun e => h (by simp [e])
    have hcs : '\n' ∉ cs := fun e => h (List.mem_cons_of_mem _ e)
    rw [split_cons, if_neg ha, ih hcs]

theorem split_append_newline (l : Str) (h : '\n' ∉ l) (r : Str) :
    split (l ++ '\n' :: r) = l :: split r := by
  induction l with
  | nil => simp [split]
  | cons a cs ih =>
    have ha : a ≠ '\n' := fun e => h (by simp [e])
    have hcs : '\n' ∉ cs := fun e => h (List.mem_cons_of_mem _ e)
    show split (a :: (cs ++ '\n' :: r)) = _
    rw [split_cons, if_neg ha, ih hcs]

theorem split_join (ls : List Str) (hne : ls ≠ []) (h : ∀ l ∈ ls, '\n' ∉ l) :
    split (join ls) = ls := by
  induction ls with
  | nil => exact absurd rfl hne
  | cons l ms ih =>
    cases ms with
    | nil => exact split_of_not_mem l (h l (List.mem_cons_self _ _))
    | cons m ms =>
      show split (l ++ '\n' :: join (m :: ms)) = _
      rw [split_append_newline l (h l (List.mem_cons_self _ _)),
        ih (by simp) (fun x hx => h x (List.mem_cons_of_mem _ hx))]

theorem join_append_singleton (ls : List Str) (x : Str) (hne : ls ≠ []) :
    join (ls ++ [x]) = join ls ++ '\n' :: x := by
  induction ls with
  | nil => exact absurd rfl hne
  | cons l ms ih =>
    cases ms with
    | nil => rfl
    | cons m ms =>
      show l ++ '\n' :: join ((m :: ms) ++ [x]) = (l ++ '\n' :: join (m :: ms)) ++ '\n' :: x
      rw [ih (by simp)]
      simp

/-! ## Lemmas on the cache-line test -/

theorem foldl_found_true (lines : List Str) :
    lines.foldl (fun found line => if isCacheLine line then true else found) true = true := by
  induction lines with
  | nil => rfl
  | cons l ls ih => simp only [List.foldl_cons]; split <;> exact ih

theorem hasCacheLine_cons (l : Str) (ls : List Str) :
    hasCacheLine (l :: ls) = (isCacheLine l || hasCacheLine ls) := by
  unfold hasCacheLine
  simp only [List.foldl_cons]
  cases h : isCacheLine l
  · simp
  · rw [if_pos rfl, foldl_found_true]; rfl

theorem hasCacheLine_eq_any (lines : List Str) : hasCacheLine lines = lines.any isCacheLine := by
  induction lines with
  | nil => rfl
  | cons l ls ih => rw [hasCacheLine_cons, ih, List.any_cons]

theorem hasCacheLine_iff (lines : List Str) :
    hasCacheLine lines = true ↔ ∃ l ∈ lines, isCacheLine l = true := by
  rw [hasCacheLine_eq_any, List.any_eq_true]

theorem isCacheLine_cacheLine : isCacheLine cacheLine = true := by decide

theorem newline_not_mem_cacheLine : '\n' ∉ cacheLine := by decide

theorem addCacheLine_of_has (c : Str) (h : hasCacheLine (split c) = true) :
    addCacheLine c = c := by
  simp [addCacheLine, h, join_split]

theorem addCacheLine_of_not (c : Str) (h : hasCacheLine (split c) = false) :
    addCacheLine c = c ++ '\n' :: cacheLine := by
  simp only [addCacheLine, h, Bool.not_false, if_true]
  rw [join_append_singleton _ _ (split_ne_nil c), join_split]

theorem hasCacheLine_split_addCacheLine (c : Str) :
    hasCacheLine (split (addCacheLine c)) = true := by
  cases h : hasCacheLine (split c)
  · have hs : split (addCacheLine c) = split c ++ [cacheLine] := by
      simp only [addCacheLine, h, Bool.not_false, if_true]
      apply split_join
      · simp
      · intro l hl
        rcases List.mem_append.1 hl with h1 | h1
        · exact not_mem_of_mem_split c l h1
        · simp at h1; rw [h1]; exact newline_not_mem_cacheLine
    rw [hs, hasCacheLine_iff]
    exact ⟨cacheLine, by simp, isCacheLine_cacheLine⟩
  · rw [addCacheLine_of_has c h]; exact h

theorem addCacheLine_idem (c : Str) : addCacheLine (addCacheLine c) = addCacheLine c :=
  addCacheLine_of_has _ (hasCacheLine_split_addCacheLine c)

/-! ## Lemmas on the archive -/

theorem findContents_replace_same (n d : Str) (es : List ArchiveEntry) :
    findContents n (replaceContents n d es) = some d := by
  induction es with
  | nil => simp [replaceContents, findContents]
  | cons e es ih =>
    unfold replaceContents
    split
    · next h => simp [findContents, h]
    · next h => simp [findContents, h, ih]

theorem findContents_replace_other (n m d : Str) (es : List ArchiveEntry) (hne : n ≠ m) :
    findContents m (replaceContents n d es) = findContents m es := by
  induction es with
  | nil => simp [replaceContents, findContents, hne]
  | cons e es ih =>
    unfold replaceContents
    split
    · next h =>
      have : e.name ≠ m := by rw [h]; exact hne
      simp [findContents, this]
    · next h =>
      simp only [findContents]
      rw [ih]

theorem replaceContents_same (n d : Str) (es : List ArchiveEntry)
    (h : findContents n es = some d) : replaceContents n d es = es := by
  induction es with
  | nil => simp [findContents] at h
  | cons e es ih =>
    unfold replaceContents
    unfold findContents at h
    split
    · next hn =>
      rw [if_pos hn] at h
      cases e
      simp at h ⊢
      exact h.symm
    · next hn =>
      rw [if_neg hn] at h
      rw [ih h]

theorem map_name_replaceContents (n d : Str) (es : List ArchiveEntry)
    (h : findContents n es ≠ none) :
    (replaceContents n d es).map ArchiveEntry.name = es.map ArchiveEntry.name := by
  induction es with
  | nil => simp [findContents] at h
  | cons e es ih =>
    unfold replaceContents
    unfold findContents at h
    split
    · simp
    · next hn =>
      rw [if_neg hn] at h
      simp [ih h]

theorem getElem?_replaceContents (n d : Str) (es : List ArchiveEntry) (i : Nat)
    (e : ArchiveEntry) (hi : es[i]? = some e) (hne : e.name ≠ n) :
    (replaceContents n d es)[i]? = some e := by
  induction es generalizing i with
  | nil => simp at hi
  | cons x xs ih =>
    unfold replaceContents
    cases i with
    | zero =>
      simp at hi
      subst hi
      simp [hne]
    | succ j =>
      simp at hi
      split
      · simpa using hi
      · simpa using ih j hi

theorem findContents_isSome_iff (n : Str) (es : List ArchiveEntry) :
    (findContents n es).isSome = true ↔ n ∈ es.map ArchiveEntry.name := by
  induction es with
  | nil => simp [findContents]
  | cons e es ih =>
    unfold findContents
    split
    · next h => simp [h]
    · next h =>
      rw [ih]
      simp only [List.map_cons, List.mem_cons]
      constructor
      · intro hm; exact Or.inr hm
      · rintro (hm | hm)
        · exact absurd hm.symm h
        · exact hm

/-! ## Lemmas on the loop of `addMissingCacheInFstab` -/

theorem contents_of_some (cpio : CpioFile) (n c : Str)
    (h : findContents n cpio.files = some c) : cpio.contents n = (some c, cpio) := by
  simp [CpioFile.contents, h]

theorem contents_of_none (cpio : CpioFile) (n : Str) (h : findContents n cpio.files = none) :
    cpio.contents n
      = (none, { cpio with error := ⟨ErrorCode.CpioFileNotExistError, n, []⟩ }) := by
  simp [CpioFile.contents, h]

theorem loop_cons_some {PC FI : Type} (t : Str) (ts : List Str) (self : Impl PC FI) (c : Str)
    (h : findContents t self.cpio.files = some c) :
    addMissingCacheLoop (t :: ts) self
      = addMissingCacheLoop ts
          { self with cpio := self.cpio.setContents t (addCacheLine c) } := by
  rw [addMissingCacheLoop, contents_of_some _ _ _ h]

theorem loop_cons_none {PC FI : Type} (t : Str) (ts : List Str) (self : Impl PC FI)
    (h : findContents t self.cpio.files = none) :
    addMissingCacheLoop (t :: ts) self
      = (false, { self with
          cpio := { self.cpio with error := ⟨ErrorCode.CpioFileNotExistError, t, []⟩ },
          error := ⟨ErrorCode.CpioFileNotExistError, t, []⟩ }) := by
  rw [addMissingCacheLoop, contents_of_none _ _ h]

theorem loop_filenames {PC FI : Type} (ts : List Str) (self : Impl PC FI) :
    (addMissingCacheLoop ts self).2.cpio.filenames = self.cpio.filenames := by
  induction ts generalizing self with
  | nil => rfl
  | cons t ts ih =>
    cases h : findContents t self.cpio.files with
    | none => rw [loop_cons_none t ts self h]; rfl
    | some c =>
      rw [loop_cons_some t ts self c h, ih]
      exact map_name_replaceContents t _ _ (by simp [h])

theorem loop_frame {PC FI : Type} (ts : List Str) (self : Impl PC FI) (i : Nat)
    (e : ArchiveEntry) (hi : self.cpio.files[i]? = some e) (hne : e.name ∉ ts) :
    (addMissingCacheLoop ts self).2.cpio.files[i]? = some e := by
  induction ts generalizing self with
  | nil => exact hi
  | cons t ts ih =>
    have h1 : e.name ≠ t := fun h => hne (by simp [h])
    have h2 : e.name ∉ ts := fun h => hne (List.mem_cons_of_mem _ h)
    cases h : findContents t self.cpio.files with
    | none => rw [loop_cons_none t ts self h]; exact hi
    | some c =>
      rw [loop_cons_some t ts self c h]
      exact ih _ (getElem?_replaceContents t _ _ i e hi h1) h2

theorem isSome_findContents_replace (n m d : Str) (es : List ArchiveEntry)
    (h : (findContents n es).isSome = true) :
    (findContents m (replaceContents n d es)).isSome = (findContents m es).isSome := by
  by_cases hnm : n = m
  · subst hnm; rw [findContents_replace_same, h]; rfl
  · rw [findContents_replace_other n m d es hnm]

theorem loop_true_iff {PC FI : Type} (ts : List Str) (self : Impl PC FI) :
    (addMissingCacheLoop ts self).1 = true
      ↔ ∀ t ∈ ts, (findContents t self.cpio.files).isSome = true := by
  induction ts generalizing self with
  | nil => simp [addMissingCacheLoop]
  | cons t ts ih =>
    cases h : findContents t self.cpio.files with
    | none =>
      rw [loop_cons_none t ts self h]
      simp [h]
    | some c =>
      rw [loop_cons_some t ts self c h, ih]
      have hs : (findContents t self.cpio.files).isSome = true := by simp [h]
      constructor
      · intro hall x hx
        rcases List.mem_cons.1 hx with hx | hx
        · rw [hx]; exact hs
        · have := hall x hx
          simp only [CpioFile.setContents] at this
          rwa [isSome_findContents_replace t x _ _ hs] at this
      · intro hall x hx
        simp only [CpioFile.setContents]
        rw [isSome_findContents_replace t x _ _ hs]
        exact hall x (List.mem_cons_of_mem _ hx)

theorem loop_error {PC FI : Type} (ts : List Str) (self : Impl PC FI) (t : Str)
    (h : ts.find? (fun x => (findContents x self.cpio.files).isNone) = some t) :
    (addMissingCacheLoop ts self).2.error = ⟨ErrorCode.CpioFileNotExistError, t, []⟩
      ∧ (addMissingCacheLoop ts self).2.cpio.error
          = ⟨ErrorCode.CpioFileNotExistError, t, []⟩ := by
  induction ts generalizing self with
  | nil => simp at h
  | cons x xs ih =>
    cases hx : findContents x self.cpio.files with
    | none =>
      rw [loop_cons_none x xs self hx]
      simp [List.find?, hx] at h
      subst h
      exact ⟨rfl, rfl⟩
    | some c =>
      rw [loop_cons_some x xs self c hx]
      simp only [List.find?, hx, Option.isNone_some] at h
      apply ih
      rw [← h]
      congr 1
      funext y
      have hs : (findContents x self.cpio.files).isSome = true := by simp [hx]
      have := isSome_findContents_replace x y (addCacheLine c) self.cpio.files hs
      simp only [CpioFile.setContents]
      cases h1 : findContents y (replaceContents x (addCacheLine c) self.cpio.files) <;>
        cases h2 : findContents y self.cpio.files <;> simp_all

theorem loop_keeps_fixed {PC FI : Type} (ts : List Str) (self : Impl PC FI) (t c : Str)
    (h : findContents t self.cpio.files = some c) (hfix : addCacheLine c = c) :
    findContents t (addMissingCacheLoop ts self).2.cpio.files = some c := by
  induction ts generalizing self with
  | nil => exact h
  | cons x xs ih =>
    cases hx : findContents x self.cpio.files with
    | none => rw [loop_cons_none x xs self hx]; exact h
    | some d =>
      rw [loop_cons_some x xs self d hx]
      apply ih
      simp only [CpioFile.setContents]
      by_cases hxt : x = t
      · subst hxt
        rw [findContents_replace_same]
        rw [h] at hx
        cases hx
        rw [hfix]
      · rw [findContents_replace_other x t _ _ hxt]; exact h

theorem loop_contents {PC FI : Type} (ts : List Str) (self : Impl PC FI) (t c : Str)
    (hok : (addMissingCacheLoop ts self).1 = true) (ht : t ∈ ts)
    (h : findContents t self.cpio.files = some c) :
    findContents t (addMissingCacheLoop ts self).2.cpio.files = some (addCacheLine c) := by
  induction ts generalizing self with
  | nil => simp at ht
  | cons x xs ih =>
    cases hx : findContents x self.cpio.files with
    | none => rw [loop_cons_none x xs self hx] at hok; simp at hok
    | some d =>
      rw [loop_cons_some x xs self d hx] at hok ⊢
      by_cases hxt : x = t
      · subst hxt
        rw [h] at hx
        cases hx
        apply loop_keeps_fixed
        · simp only [CpioFile.setContents]; rw [findContents_replace_same]
        · exact addCacheLine_idem c
      · have ht2 : t ∈ xs := by
          rcases List.mem_cons.1 ht with h1 | h1
          · exact absurd h1.symm hxt
          · exact h1
        apply ih _ hok ht2
        simp only [CpioFile.setContents]
        rw [findContents_replace_other x t _ _ hxt]; exact h

theorem loop_contents_reached {PC FI : Type} (pre post : List Str) (self : Impl PC FI)
    (t c : Str) (hpre : ∀ x ∈ pre, (findContents x self.cpio.files).isSome = true)
    (h : findContents t self.cpio.files = some c) :
    findContents t (addMissingCacheLoop (pre ++ t :: post) self).2.cpio.files
      = some (addCacheLine c) := by
  induction pre generalizing self with
  | nil =>
    rw [List.nil_append, loop_cons_some t post self c h]
    apply loop_keeps_fixed
    · simp only [CpioFile.setContents]; rw [findContents_replace_same]
    · exact addCacheLine_idem c
  | cons x xs ih =>
    have hx := hpre x (List.mem_cons_self _ _)
    obtain ⟨d, hd⟩ := Option.isSome_iff_exists.1 hx
    rw [List.cons_append, loop_cons_some x _ self d hd]
    by_cases hxt : x = t
    · subst hxt
      rw [h] at hd
      cases hd
      apply loop_keeps_fixed
      · simp only [CpioFile.setContents]; rw [findContents_replace_same]
      · exact addCacheLine_idem c
    · apply ih
      · intro y hy
        simp only [CpioFile.setContents]
        rw [isSome_findContents_replace x y _ _ hx]
        exact hpre y (List.mem_cons_of_mem _ hy)
      · simp only [CpioFile.setContents]
        rw [findContents_replace_other x t _ _ hxt]; exact h

theorem loop_contents_takeWhile {PC FI : Type} (ts : List Str) (self : Impl PC FI)
    (t c : Str) (ht : t ∈ ts)
    (hreach : ∀ x ∈ ts.takeWhile (fun x => x != t),
      (findContents x self.cpio.files).isSome = true)
    (h : findContents t self.cpio.files = some c) :
    findContents t (addMissingCacheLoop ts self).2.cpio.files = some (addCacheLine c) := by
  have hsplit : ∃ post, ts = ts.takeWhile (fun x => x != t) ++ t :: post := by
    clear hreach h
    induction ts with
    | nil => simp at ht
    | cons y ys ih =>
      by_cases hy : y = t
      · subst hy
        exact ⟨ys, by simp [List.takeWhile]⟩
      · have hmem : t ∈ ys := by
          rcases List.mem_cons.1 ht with h1 | h1
          · exact absurd h1.symm hy
          · exact h1
        obtain ⟨post, hpost⟩ := ih hmem
        refine ⟨post, ?_⟩
        have hne : (y != t) = true := by simpa using hy
        rw [List.takeWhile_cons, hne]
        simp only [if_true, List.cons_append]
        rw [← hpost]
  obtain ⟨post, hpost⟩ := hsplit
  rw [hpost]
  exact loop_contents_reached _ post self t c hreach h

theorem loop_of_fixed {PC FI : Type} (ts : List Str) (self : Impl PC FI)
    (h : ∀ t ∈ ts, ∃ c, findContents t self.cpio.files = some c ∧ addCacheLine c = c) :
    addMissingCacheLoop ts self = (true, self) := by
  induction ts with
  | nil => rfl
  | cons x xs ih =>
    obtain ⟨c, hc, hfix⟩ := h x (List.mem_cons_self _ _)
    rw [loop_cons_some x xs self c hc, hfix]
    have : self.cpio.setContents x c = self.cpio := by
      simp only [CpioFile.setContents]
      rw [replaceContents_same x c _ hc]
    rw [this]
    exact ih (fun t ht => h t (List.mem_cons_of_mem _ ht))

theorem fstabTargets_congr (a b : CpioFile) (add : List Str)
    (h : a.filenames = b.filenames) : fstabTargets a add = fstabTargets b add := by
  simp [fstabTargets, h]

/-! ## Lemmas on the loop of `stripManualMounts` -/

theorem commentManualMounts_eq_map (lines : List Str) :
    commentManualMounts lines
      = lines.map (fun line => if isManualMount line then '#' :: line else line) := by
  induction lines with
  | nil => rfl
  | cons l ls ih => simp [commentManualMounts, ih]

theorem split_stripContents (contents : Str) :
    split (stripContents contents) = commentManualMounts (split contents) := by
  unfold stripContents
  apply split_join
  · rw [commentManualMounts_eq_map]
    simpa using split_ne_nil contents
  · intro l hl
    rw [commentManualMounts_eq_map] at hl
    obtain ⟨x, hx, rfl⟩ := List.mem_map.1 hl
    have hxn := not_mem_of_mem_split contents x hx
    split
    · intro hmem
      rcases List.mem_cons.1 hmem with h | h
      · exact absurd h (by decide)
      · exact hxn h
    · exact hxn

theorem contents_fst_eq_none_iff (cpio : CpioFile) (t : Str) :
    (cpio.contents t).1 = none ↔ findContents t cpio.files = none := by
  unfold CpioFile.contents
  cases h : findContents t cpio.files <;> simp

theorem isSome_contents_fst (cpio : CpioFile) (t : Str) :
    (cpio.contents t).1.isSome = (findContents t cpio.files).isSome := by
  unfold CpioFile.contents
  cases findContents t cpio.files <;> rfl

/-! ## The statements -/

/-- C1: `addMissingCacheInFstab` is idempotent. When a first call returns true, a
second call with the same additional names returns true and leaves the patcher and
its archive exactly as the first call left them; and every targeted file, also one
targeted twice, then holds its original content passed once through the rewrite,
which is a fixed point of the rewrite and is the original content with at most one
appended cache line, so no file carries two appended cache lines. -/
theorem addMissingCacheInFstab_idempotent {PC FI : Type} (self : Impl PC FI)
    (additionalFstabs : List Str)
    (hfirst : (QcomRamdiskPatcher.addMissingCacheInFstab self additionalFstabs).1 = true) :
    QcomRamdiskPatcher.addMissingCacheInFstab
        (QcomRamdiskPatcher.addMissingCacheInFstab self additionalFstabs).2 additionalFstabs
      = (true, (QcomRamdiskPatcher.addMissingCacheInFstab self additionalFstabs).2)
    ∧ ∀ t ∈ fstabTargets self.cpio additionalFstabs, ∀ c,
        findContents t self.cpio.files = some c →
        findContents t
            (QcomRamdiskPatcher.addMissingCacheInFstab
              (QcomRamdiskPatcher.addMissingCacheInFstab self additionalFstabs).2
              additionalFstabs).2.cpio.files = some (addCacheLine c)
          ∧ addCacheLine (addCacheLine c) = addCacheLine c
          ∧ (addCacheLine c = c ∨ addCacheLine c = c ++ '\n' :: cacheLine) := by
  have hnames := loop_filenames (fstabTargets self.cpio additionalFstabs) self
  have htargets := fstabTargets_congr _ _ additionalFstabs hnames
  have hreadable := (loop_true_iff _ self).1 hfirst
  have hsecond : QcomRamdiskPatcher.addMissingCacheInFstab
        (QcomRamdiskPatcher.addMissingCacheInFstab self additionalFstabs).2 additionalFstabs
      = (true, (QcomRamdiskPatcher.addMissingCacheInFstab self additionalFstabs).2) := by
    unfold QcomRamdiskPatcher.addMissingCacheInFstab
    rw [htargets]
    apply loop_of_fixed
    intro t ht
    have hs := hreadable t ht
    obtain ⟨c, hc⟩ := Option.isSome_iff_exists.1 hs
    exact ⟨addCacheLine c, loop_contents _ self t c hfirst ht hc, addCacheLine_idem c⟩
  refine ⟨hsecond, ?_⟩
  intro t ht c hc
  rw [hsecond]
  refine ⟨loop_contents _ self t c hfirst ht hc, addCacheLine_idem c, ?_⟩
  cases h : hasCacheLine (split c)
  · exact Or.inr (addCacheLine_of_not c h)
  · exact Or.inl (addCacheLine_of_has c h)

/-- C1, at the example archive with `fstab.qcom` targeted twice. -/
theorem addMissingCacheInFstab_idempotent_witness :
    (QcomRamdiskPatcher.addMissingCacheInFstab examplePatcher ["fstab.qcom".toList]).1 = true
    ∧ (QcomRamdiskPatcher.addMissingCacheInFstab
        (QcomRamdiskPatcher.addMissingCacheInFstab examplePatcher ["fstab.qcom".toList]).2
        ["fstab.qcom".toList]
      = (true,
          (QcomRamdiskPatcher.addMissingCacheInFstab examplePatcher ["fstab.qcom".toList]).2)
    ∧ ∀ t ∈ fstabTargets examplePatcher.cpio ["fstab.qcom".toList], ∀ c,
        findContents t examplePatcher.cpio.files = some c →
        findContents t
            (QcomRamdiskPatcher.addMissingCacheInFstab
              (QcomRamdiskPatcher.addMissingCacheInFstab examplePatcher
                ["fstab.qcom".toList]).2
              ["fstab.qcom".toList]).2.cpio.files = some (addCacheLine c)
          ∧ addCacheLine (addCacheLine c) = addCacheLine c
          ∧ (addCacheLine c = c ∨ addCacheLine c = c ++ '\n' :: cacheLine)) :=
  ⟨by decide, addMissingCacheInFstab_idempotent examplePatcher ["fstab.qcom".toList] (by decide)⟩

/-- C2: `stripManualMounts` targets lines precisely. For a file that can be read the
call returns true and, splitting the old and the new content on `\n`, both have the
same number of lines and line `i` of the new content is `#` followed by line `i` of
the old content when one of the six patterns is found in that line, and is that line
itself otherwise. One of the six patterns is found in a line exactly when the line is
leading whitespace, then `wait`, `check_fs` or `mount`-whitespace-`ext4`, then
whitespace, then `/dev/`, any text without line terminator and `/cache` or
`/userdata`, then anything. The init script of the example has its cache mount
commented and its system mount unchanged. -/
theorem stripManualMounts_targets_lines {PC FI : Type} (self : Impl PC FI)
    (filename contents : Str)
    (hread : findContents filename self.cpio.files = some contents) :
    (QcomRamdiskPatcher.stripManualMounts self filename).1 = true
    ∧ ∃ out,
        findContents filename
            (QcomRamdiskPatcher.stripManualMounts self filename).2.cpio.files = some out
        ∧ (split out).length = (split contents).length
        ∧ (∀ (i : Nat) (line : Str), (split contents)[i]? = some line →
            (split out)[i]? = some (if isManualMount line then '#' :: line else line))
        ∧ (∀ line, isManualMount line = true ↔ ManualMountShape line)
        ∧ stripContents initScript = initScriptStripped := by
  have hcall : QcomRamdiskPatcher.stripManualMounts self filename
      = (true, { self with
          cpio := self.cpio.setContents filename (stripContents contents) }) := by
    unfold QcomRamdiskPatcher.stripManualMounts
    rw [contents_of_some _ _ _ hread]
  rw [hcall]
  refine ⟨rfl, stripContents contents, ?_, ?_, ?_, isManualMount_iff, by decide⟩
  · exact findContents_replace_same _ _ _
  · rw [split_stripContents, commentManualMounts_eq_map, List.length_map]
  · intro i line hi
    rw [split_stripContents, commentManualMounts_eq_map, List.getElem?_map, hi]
    rfl

/-- C2, at the init script of the example archive. -/
theorem stripManualMounts_targets_lines_witness :
    findContents "init.rc".toList examplePatcher.cpio.files = some initScript
    ∧ (QcomRamdiskPatcher.stripManualMounts examplePatcher "init.rc".toList).1 = true
    ∧ ∃ out,
        findContents "init.rc".toList
            (QcomRamdiskPatcher.stripManualMounts examplePatcher
              "init.rc".toList).2.cpio.files = some out
        ∧ (split out).length = (split initScript).length
        ∧ (∀ (i : Nat) (line : Str), (split initScript)[i]? = some line →
            (split out)[i]? = some (if isManualMount line then '#' :: line else line))
        ∧ (∀ line, isManualMount line = true ↔ ManualMountShape line)
        ∧ stripContents initScript = initScriptStripped :=
  ⟨by decide,
    stripManualMounts_targets_lines examplePatcher "init.rc".toList initScript (by decide)⟩

/-- C3, as stated, fails: with the additional names `missing` and `init.rc` on an
archive that holds `init.rc` only, `init.rc` is a targeted file in which no line is
matched by the fstab pattern with mount-point field `/cache`, but the call returns
false at `missing` and leaves `init.rc` as it was. -/
theorem unreached_target_not_rewritten :
    fstabTargets initOnlyPatcher.cpio ["missing".toList, "init.rc".toList]
      = ["missing".toList, "init.rc".toList]
    ∧ findContents "init.rc".toList initOnlyPatcher.cpio.files = some initScript
    ∧ (∀ line ∈ split initScript, isCacheLine line = false)
    ∧ (initOnlyPatcher.cpio.contents "missing".toList).1 = none
    ∧ (QcomRamdiskPatcher.addMissingCacheInFstab initOnlyPatcher
        ["missing".toList, "init.rc".toList]).1 = false
    ∧ findContents "init.rc".toList
        (QcomRamdiskPatcher.addMissingCacheInFstab initOnlyPatcher
          ["missing".toList, "init.rc".toList]).2.cpio.files
      = some initScript
    ∧ findContents "init.rc".toList
        (QcomRamdiskPatcher.addMissingCacheInFstab initOnlyPatcher
          ["missing".toList, "init.rc".toList]).2.cpio.files
      ≠ some (initScript ++ '\n' :: cacheLine) := by
  decide

/-- C3, amended: for every targeted file that the loop of `addMissingCacheInFstab`
reaches, that is, such that every target listed before it can be read (as in every
call that returns true), and in which no line is matched by the fstab pattern with
mount-point field `/cache`, the file is rewritten to its old content, then `\n`, then
the line
`/dev/block/platform/msm_sdcc.1/by-name/cache /cache ext4 nosuid,nodev,barrier=1 wait,check`
with no trailing newline. -/
theorem addMissingCacheInFstab_appends {PC FI : Type} (self : Impl PC FI)
    (additionalFstabs : List Str) (t c : Str)
    (ht : t ∈ fstabTargets self.cpio additionalFstabs)
    (hreach : ∀ x ∈ (fstabTargets self.cpio additionalFstabs).takeWhile (fun x => x != t),
      (self.cpio.contents x).1.isSome = true)
    (hc : findContents t self.cpio.files = some c)
    (hno : ∀ line ∈ split c, isCacheLine line = false) :
    findContents t (QcomRamdiskPatcher.addMissingCacheInFstab self additionalFstabs).2.cpio.files
      = some (c ++ '\n' :: cacheLine)
    ∧ cacheLine = ("/dev/block/platform/msm_sdcc.1/by-name/cache /cache ext4 "
        ++ "nosuid,nodev,barrier=1 wait,check").toList := by
  have hnone : hasCacheLine (split c) = false := by
    cases h : hasCacheLine (split c)
    · rfl
    · obtain ⟨l, hl, hcl⟩ := (hasCacheLine_iff _).1 h
      rw [hno l hl] at hcl
      exact absurd hcl (by decide)
  have hreach2 : ∀ x ∈ (fstabTargets self.cpio additionalFstabs).takeWhile (fun x => x != t),
      (findContents x self.cpio.files).isSome = true := by
    intro x hx
    rw [← isSome_contents_fst]
    exact hreach x hx
  refine ⟨?_, by decide⟩
  rw [← addCacheLine_of_not c hnone]
  exact loop_contents_takeWhile _ self t c ht hreach2 hc

/-- C3 amended, at the file of the example archive whose only line is
`/dev/block/.../system /system ext4 ro,barrier=1 wait`, in a call that returns true. -/
theorem addMissingCacheInFstab_appends_witness :
    (QcomRamdiskPatcher.addMissingCacheInFstab examplePatcher []).1 = true
    ∧ "fstab.qcom".toList ∈ fstabTargets examplePatcher.cpio []
    ∧ findContents "fstab.qcom".toList examplePatcher.cpio.files = some systemFstab
    ∧ (∀ line ∈ split systemFstab, isCacheLine line = false)
    ∧ findContents "fstab.qcom".toList
        (QcomRamdiskPatcher.addMissingCacheInFstab examplePatcher []).2.cpio.files
      = some (systemFstab ++ '\n' :: cacheLine)
    ∧ cacheLine = ("/dev/block/platform/msm_sdcc.1/by-name/cache /cache ext4 "
        ++ "nosuid,nodev,barrier=1 wait,check").toList :=
  ⟨by decide, by decide, by decide, by decide,
    addMissingCacheInFstab_appends examplePatcher [] "fstab.qcom".toList systemFstab
      (by decide) (by decide) (by decide) (by decide)⟩

/-- C4: a file of the archive that contains a non-comment line matched by the fstab
pattern with mount-point field `/cache` has the same content after
`addMissingCacheInFstab` as before, whether the call returns true or false and however
often the file is targeted; and splitting any content on `\n` and joining the lines
with `\n` gives the content back, the empty content and a content ending in a newline
included. Every line made of a device node starting with `/dev/`, the mount point
`/cache`, a filesystem type, mount options and vold options, separated by whitespace,
is such a non-comment line. -/
theorem addMissingCacheInFstab_keeps_cached {PC FI : Type} (self : Impl PC FI)
    (additionalFstabs : List Str) (t c : Str)
    (hc : findContents t self.cpio.files = some c)
    (hline : ∃ line ∈ split c, isNonCommentCacheLine line = true) :
    findContents t (QcomRamdiskPatcher.addMissingCacheInFstab self additionalFstabs).2.cpio.files
      = some c
    ∧ addCacheLine c = c
    ∧ (∀ d : Str, join (split d) = d)
    ∧ ∀ line, CacheEntryShape line → isNonCommentCacheLine line = true := by
  have hhas : hasCacheLine (split c) = true := by
    obtain ⟨l, hl, hn⟩ := hline
    refine (hasCacheLine_iff _).2 ⟨l, hl, ?_⟩
    unfold isNonCommentCacheLine at hn
    unfold isCacheLine
    cases hr : regex_search l FstabRegex with
    | none => rw [hr] at hn; exact absurd hn (by decide)
    | some what =>
      rw [hr] at hn
      simp only [Bool.and_eq_true] at hn
      exact hn.2
  have hfix := addCacheLine_of_has c hhas
  exact ⟨loop_keeps_fixed _ self t c hc hfix, hfix, join_split,
    isNonCommentCacheLine_of_shape⟩

/-- C4, at the file of the example archive that has a cache line and ends in a
newline. -/
theorem addMissingCacheInFstab_keeps_cached_witness :
    findContents "fstab.cached".toList examplePatcher.cpio.files = some cachedFstab
    ∧ (∃ line ∈ split cachedFstab, isNonCommentCacheLine line = true)
    ∧ findContents "fstab.cached".toList
        (QcomRamdiskPatcher.addMissingCacheInFstab examplePatcher
          ["fstab.qcom".toList]).2.cpio.files = some cachedFstab
    ∧ addCacheLine cachedFstab = cachedFstab
    ∧ (∀ d : Str, join (split d) = d)
    ∧ ∀ line, CacheEntryShape line → isNonCommentCacheLine line = true :=
  ⟨by decide, by decide,
    addMissingCacheInFstab_keeps_cached examplePatcher ["fstab.qcom".toList]
      "fstab.cached".toList cachedFstab (by decide) (by decide)⟩

/-- C5: the code departs from the claim. In the targeted file `fstab.commented` of
the example archive no non-comment line has mount-point field `/cache`, its only
entry being the commented `# /dev/block/x /cache ext4 defaults wait`; that line
passes the test of the loop, the call returns true, and the file is left as it was,
without the synthesized cache line. The same entry commented out with no blank after
the `#`, `#/dev/block/x /cache ext4 defaults wait`, does not pass the test, and the
rewrite appends the cache line to it. -/
theorem commented_cache_line_not_appended :
    "fstab.commented".toList ∈ fstabTargets examplePatcher.cpio []
    ∧ findContents "fstab.commented".toList examplePatcher.cpio.files = some commentedFstab
    ∧ (∀ line ∈ split commentedFstab, isNonCommentCacheLine line = false)
    ∧ isCommentedCacheLine commentedFstab = true
    ∧ isCacheLine commentedFstab = true
    ∧ (QcomRamdiskPatcher.addMissingCacheInFstab examplePatcher []).1 = true
    ∧ findContents "fstab.commented".toList
        (QcomRamdiskPatcher.addMissingCacheInFstab examplePatcher []).2.cpio.files
      = some commentedFstab
    ∧ findContents "fstab.commented".toList
        (QcomRamdiskPatcher.addMissingCacheInFstab examplePatcher []).2.cpio.files
      ≠ some (commentedFstab ++ '\n' :: cacheLine)
    ∧ isCacheLine hashDevFstab = false
    ∧ addCacheLine hashDevFstab = hashDevFstab ++ '\n' :: cacheLine := by
  decide

/-- C6: `addMissingCacheInFstab` fails exactly when a target is missing. It returns
false if and only if some name of the target list cannot be read from the archive;
then `error()` is the error that the archive reports for the first such name, which is
also the archive's error after the call. -/
theorem addMissingCacheInFstab_fails_iff {PC FI : Type} (self : Impl PC FI)
    (additionalFstabs : List Str) :
    ((QcomRamdiskPatcher.addMissingCacheInFstab self additionalFstabs).1 = false
      ↔ ∃ t ∈ fstabTargets self.cpio additionalFstabs, (self.cpio.contents t).1 = none)
    ∧ ∀ t, (fstabTargets self.cpio additionalFstabs).find?
          (fun x => (self.cpio.contents x).1.isNone) = some t →
        QcomRamdiskPatcher.error
            (QcomRamdiskPatcher.addMissingCacheInFstab self additionalFstabs).2
          = (self.cpio.contents t).2.error
        ∧ QcomRamdiskPatcher.error
            (QcomRamdiskPatcher.addMissingCacheInFstab self additionalFstabs).2
          = (QcomRamdiskPatcher.addMissingCacheInFstab self additionalFstabs).2.cpio.error := by
  constructor
  · unfold QcomRamdiskPatcher.addMissingCacheInFstab
    rw [← Bool.not_eq_true, loop_true_iff]
    simp only [not_forall, contents_fst_eq_none_iff]
    constructor
    · rintro ⟨t, ht, hn⟩
      refine ⟨t, ht, ?_⟩
      cases h : findContents t self.cpio.files with
      | none => rfl
      | some c => rw [h] at hn; exact absurd rfl hn
    · rintro ⟨t, ht, hn⟩
      exact ⟨t, ht, by rw [hn]; decide⟩
  · intro t hfind
    have hpred : (fun x => (self.cpio.contents x).1.isNone)
        = (fun x => (findContents x self.cpio.files).isNone) := by
      funext x
      unfold CpioFile.contents
      cases findContents x self.cpio.files <;> rfl
    rw [hpred] at hfind
    have hnone : findContents t self.cpio.files = none := by
      have := List.find?_some hfind
      simpa using this
    obtain ⟨h1, h2⟩ := loop_error _ self t hfind
    unfold QcomRamdiskPatcher.addMissingCacheInFstab QcomRamdiskPatcher.error
    rw [h1, h2, contents_of_none _ _ hnone]
    exact ⟨rfl, rfl⟩

/-- C7: `addMissingCacheInFstab` touches only its targets. Whatever the call returns,
the ordered sequence of entry names is the same before and after, and every entry
whose name neither starts with `fstab.` nor occurs in the additional names is the same
entry, at the same place, afterwards; the name `fstab` does not start with `fstab.`. -/
theorem addMissingCacheInFstab_frame {PC FI : Type} (self : Impl PC FI)
    (additionalFstabs : List Str) :
    (QcomRamdiskPatcher.addMissingCacheInFstab self additionalFstabs).2.cpio.filenames
      = self.cpio.filenames
    ∧ (∀ (i : Nat) (e : ArchiveEntry), self.cpio.files[i]? = some e →
        "fstab.".toList.isPrefixOf e.name = false → e.name ∉ additionalFstabs →
        (QcomRamdiskPatcher.addMissingCacheInFstab self additionalFstabs).2.cpio.files[i]?
          = some e)
    ∧ "fstab.".toList.isPrefixOf "fstab".toList = false := by
  refine ⟨loop_filenames _ self, ?_, by decide⟩
  intro i e hi hpre hadd
  apply loop_frame _ self i e hi
  unfold fstabTargets
  intro hmem
  rcases List.mem_append.1 hmem with h | h
  · have := (List.mem_filter.1 h).2
    rw [hpre] at this
    exact absurd this (by decide)
  · exact hadd h

/-! ## Lemmas on `TrelteDefaultRamdiskPatcher::patchRamdisk` and on failures -/

theorem loop_false_error {PC FI : Type} (ts : List Str) (self : Impl PC FI)
    (h : (addMissingCacheLoop ts self).1 = false) :
    ∃ t ∈ ts, (addMissingCacheLoop ts self).2.error
      = ⟨ErrorCode.CpioFileNotExistError, t, []⟩ := by
  have hnot : ¬ ∀ t ∈ ts, (findContents t self.cpio.files).isSome = true := by
    rw [← loop_true_iff, h]; decide
  simp only [not_forall] at hnot
  obtain ⟨x, hx, hxn⟩ := hnot
  have hsome : (ts.find? (fun y => (findContents y self.cpio.files).isNone)).isSome = true := by
    rw [List.find?_isSome]
    refine ⟨x, hx, ?_⟩
    cases hf : findContents x self.cpio.files with
    | none => rfl
    | some c => rw [hf] at hxn; exact absurd rfl hxn
  obtain ⟨t, ht⟩ := Option.isSome_iff_exists.1 hsome
  exact ⟨t, List.mem_of_find?_eq_some ht, (loop_error ts self t ht).1⟩

theorem exampleCore_patchRamdisk_error (c : CpioFile × PatcherError)
    (h : (exampleCore.patchRamdisk c).1 = false) :
    (exampleCore.error (exampleCore.patchRamdisk c).2).errorCode ≠ ErrorCode.NoError := by
  exact absurd h (by simp [exampleCore])

theorem exampleCore_useGeneratedFstabAuto_error (c : CpioFile × PatcherError)
    (_h : (exampleCore.useGeneratedFstabAuto c).1 = false) :
    (exampleCore.error (exampleCore.useGeneratedFstabAuto c).2).errorCode
      ≠ ErrorCode.NoError := by
  revert _h
  simp only [exampleCore, CpioFile.contents]
  cases findContents "fstab.gen".toList c.1.files <;> simp

theorem exampleCore_fixChargerMountAuto_error (c : CpioFile × PatcherError)
    (h : (exampleCore.fixChargerMountAuto c).1 = false) :
    (exampleCore.error (exampleCore.fixChargerMountAuto c).2).errorCode
      ≠ ErrorCode.NoError := by
  exact absurd h (by simp [exampleCore])

theorem trelte_patchRamdisk_eq {PC FI Core : Type}
    (core : CoreRamdiskPatcher PC FI Core) (self : Impl PC FI) :
    TrelteDefaultRamdiskPatcher.patchRamdisk core self
      = if (core.patchRamdisk (core.construct self.pc self.info self.cpio)).1 = false then
          (false, { self with
            cpio := core.cpio
              (core.patchRamdisk (core.construct self.pc self.info self.cpio)).2,
            error := core.error
              (core.patchRamdisk (core.construct self.pc self.info self.cpio)).2 })
        else if (core.useGeneratedFstabAuto
            (core.patchRamdisk (core.construct self.pc self.info self.cpio)).2).1 = false then
          (false, { self with
            cpio := core.cpio (core.useGeneratedFstabAuto
              (core.patchRamdisk (core.construct self.pc self.info self.cpio)).2).2,
            error := core.error (core.useGeneratedFstabAuto
              (core.patchRamdisk (core.construct self.pc self.info self.cpio)).2).2 })
        else if (core.fixChargerMountAuto (core.useGeneratedFstabAuto
            (core.patchRamdisk (core.construct self.pc self.info self.cpio)).2).2).1 = false then
          (false, { self with
            cpio := core.cpio (core.fixChargerMountAuto (core.useGeneratedFstabAuto
              (core.patchRamdisk (core.construct self.pc self.info self.cpio)).2).2).2,
            error := core.error (core.fixChargerMountAuto (core.useGeneratedFstabAuto
              (core.patchRamdisk (core.construct self.pc self.info self.cpio)).2).2).2 })
        else
          (true, { self with
            cpio := core.cpio (core.fixChargerMountAuto (core.useGeneratedFstabAuto
              (core.patchRamdisk (core.construct self.pc self.info self.cpio)).2).2).2 }) := by
  unfold TrelteDefaultRamdiskPatcher.patchRamdisk
  dsimp only
  rcases h1 : core.patchRamdisk (core.construct self.pc self.info self.cpio) with ⟨b1, c1⟩
  cases b1
  · simp
  · rcases h2 : core.useGeneratedFstabAuto c1 with ⟨b2, c2⟩
    cases b2
    · simp [h2]
    · rcases h3 : core.fixChargerMountAuto c2 with ⟨b3, c3⟩
      cases b3 <;> simp [h2, h3]

/-- C8: `TrelteDefaultRamdiskPatcher::patchRamdisk` constructs one core patcher over
the archive of the job and runs `patchRamdisk`, `useGeneratedFstabAuto` and
`fixChargerMountAuto` on it, each on the state left by the one before. It returns true
if and only if the three steps return true, and then the archive is the one that the
third step leaves after the second after the first. -/
theorem trelte_patchRamdisk_runs_steps {PC FI Core : Type}
    (core : CoreRamdiskPatcher PC FI Core) (self : Impl PC FI) :
    ((TrelteDefaultRamdiskPatcher.patchRamdisk core self).1 = true
      ↔ (core.patchRamdisk (core.construct self.pc self.info self.cpio)).1 = true
        ∧ (core.useGeneratedFstabAuto
            (core.patchRamdisk (core.construct self.pc self.info self.cpio)).2).1 = true
        ∧ (core.fixChargerMountAuto
            (core.useGeneratedFstabAuto
              (core.patchRamdisk (core.construct self.pc self.info self.cpio)).2).2).1 = true)
    ∧ ((TrelteDefaultRamdiskPatcher.patchRamdisk core self).1 = true →
        (TrelteDefaultRamdiskPatcher.patchRamdisk core self).2.cpio
          = core.cpio (core.fixChargerMountAuto
              (core.useGeneratedFstabAuto
                (core.patchRamdisk (core.construct self.pc self.info self.cpio)).2).2).2) := by
  rw [trelte_patchRamdisk_eq]
  cases h1 : (core.patchRamdisk (core.construct self.pc self.info self.cpio)).1
  · simp
  · cases h2 : (core.useGeneratedFstabAuto
        (core.patchRamdisk (core.construct self.pc self.info self.cpio)).2).1
    · simp
    · cases h3 : (core.fixChargerMountAuto (core.useGeneratedFstabAuto
          (core.patchRamdisk (core.construct self.pc self.info self.cpio)).2).2).1 <;> simp

/-- C8, at the example core patcher on an archive where its three steps succeed. -/
theorem trelte_patchRamdisk_runs_steps_witness :
    (TrelteDefaultRamdiskPatcher.patchRamdisk exampleCore generatedPatcher).1 = true
    ∧ (TrelteDefaultRamdiskPatcher.patchRamdisk exampleCore generatedPatcher).2.cpio
        = exampleCore.cpio (exampleCore.fixChargerMountAuto
            (exampleCore.useGeneratedFstabAuto
              (exampleCore.patchRamdisk
                (exampleCore.construct generatedPatcher.pc generatedPatcher.info
                  generatedPatcher.cpio)).2).2).2 :=
  ⟨by decide, (trelte_patchRamdisk_runs_steps exampleCore generatedPatcher).2 (by decide)⟩

/-- C9: when a step of `TrelteDefaultRamdiskPatcher::patchRamdisk` fails, the call
returns false with the archive as the failing step left it and with `error()` equal to
the core patcher's error after that step, and the result is the same whatever the
later steps are, so none of them is run; when the three steps succeed the patcher's
error is the one it had before the call. -/
theorem trelte_patchRamdisk_failure {PC FI Core : Type}
    (core : CoreRamdiskPatcher PC FI Core) (self : Impl PC FI) :
    ((core.patchRamdisk (core.construct self.pc self.info self.cpio)).1 = false →
      TrelteDefaultRamdiskPatcher.patchRamdisk core self
        = (false, { self with
            cpio := core.cpio
              (core.patchRamdisk (core.construct self.pc self.info self.cpio)).2,
            error := core.error
              (core.patchRamdisk (core.construct self.pc self.info self.cpio)).2 })
      ∧ ∀ f g, TrelteDefaultRamdiskPatcher.patchRamdisk
            { core with useGeneratedFstabAuto := f, fixChargerMountAuto := g } self
          = TrelteDefaultRamdiskPatcher.patchRamdisk core self)
    ∧ ((core.patchRamdisk (core.construct self.pc self.info self.cpio)).1 = true →
      (core.useGeneratedFstabAuto
        (core.patchRamdisk (core.construct self.pc self.info self.cpio)).2).1 = false →
      TrelteDefaultRamdiskPatcher.patchRamdisk core self
        = (false, { self with
            cpio := core.cpio (core.useGeneratedFstabAuto
              (core.patchRamdisk (core.construct self.pc self.info self.cpio)).2).2,
            error := core.error (core.useGeneratedFstabAuto
              (core.patchRamdisk (core.construct self.pc self.info self.cpio)).2).2 })
      ∧ ∀ g, TrelteDefaultRamdiskPatcher.patchRamdisk
            { core with fixChargerMountAuto := g } self
          = TrelteDefaultRamdiskPatcher.patchRamdisk core self)
    ∧ ((core.patchRamdisk (core.construct self.pc self.info self.cpio)).1 = true →
      (core.useGeneratedFstabAuto
        (core.patchRamdisk (core.construct self.pc self.info self.cpio)).2).1 = true →
      (core.fixChargerMountAuto (core.useGeneratedFstabAuto
        (core.patchRamdisk (core.construct self.pc self.info self.cpio)).2).2).1 = false →
      TrelteDefaultRamdiskPatcher.patchRamdisk core self
        = (false, { self with
            cpio := core.cpio (core.fixChargerMountAuto (core.useGeneratedFstabAuto
              (core.patchRamdisk (core.construct self.pc self.info self.cpio)).2).2).2,
            error := core.error (core.fixChargerMountAuto (core.useGeneratedFstabAuto
              (core.patchRamdisk (core.construct self.pc self.info self.cpio)).2).2).2 }))
    ∧ ((TrelteDefaultRamdiskPatcher.patchRamdisk core self).1 = true →
      TrelteBaseRamdiskPatcher.error (TrelteDefaultRamdiskPatcher.patchRamdisk core self).2
        = TrelteBaseRamdiskPatcher.error self) := by
  unfold TrelteBaseRamdiskPatcher.error
  refine ⟨fun h1 => ⟨?_, fun f g => ?_⟩, fun h1 h2 => ⟨?_, fun g => ?_⟩, fun h1 h2 h3 => ?_,
    ?_⟩
  · rw [trelte_patchRamdisk_eq, if_pos h1]
  · rw [trelte_patchRamdisk_eq, trelte_patchRamdisk_eq core]
    simp [h1]
  · rw [trelte_patchRamdisk_eq, if_neg (by rw [h1]; decide), if_pos h2]
  · rw [trelte_patchRamdisk_eq, trelte_patchRamdisk_eq core]
    simp [h1, h2]
  · rw [trelte_patchRamdisk_eq, if_neg (by rw [h1]; decide), if_neg (by rw [h2]; decide),
      if_pos h3]
  · rw [trelte_patchRamdisk_eq]
    intro h
    split_ifs at h ⊢
    rfl

/-- C9, at the example core patcher on the example archive, where the second step
fails: the archive is as that step left it and the error is the core patcher's. -/
theorem trelte_patchRamdisk_failure_witness :
    (exampleCore.patchRamdisk
      (exampleCore.construct examplePatcher.pc examplePatcher.info examplePatcher.cpio)).1
      = true
    ∧ (exampleCore.useGeneratedFstabAuto
        (exampleCore.patchRamdisk
          (exampleCore.construct examplePatcher.pc examplePatcher.info
            examplePatcher.cpio)).2).1 = false
    ∧ TrelteDefaultRamdiskPatcher.patchRamdisk exampleCore examplePatcher
        = (false, { examplePatcher with
            cpio := exampleCore.cpio (exampleCore.useGeneratedFstabAuto
              (exampleCore.patchRamdisk
                (exampleCore.construct examplePatcher.pc examplePatcher.info
                  examplePatcher.cpio)).2).2,
            error := exampleCore.error (exampleCore.useGeneratedFstabAuto
              (exampleCore.patchRamdisk
                (exampleCore.construct examplePatcher.pc examplePatcher.info
                  examplePatcher.cpio)).2).2 })
    ∧ (TrelteBaseRamdiskPatcher.error
        (TrelteDefaultRamdiskPatcher.patchRamdisk exampleCore examplePatcher).2)
        = ⟨ErrorCode.CpioFileNotExistError, "fstab.gen".toList, []⟩ :=
  ⟨by decide, by decide,
    ((trelte_patchRamdisk_failure exampleCore examplePatcher).2.1 (by decide) (by decide)).1,
    by decide⟩

theorem run_seq (r t : Re) (k : MState → Option MState) (s : MState) :
    (Re.seq r t).run k s = r.run (t.run k) s := rfl

theorem run_group (i : Nat) (r : Re) (k : MState → Option MState) (p : Nat) (s : Str)
    (c : Nat → Option Str) :
    (Re.group i r).run k ⟨p, s, c⟩
      = r.run (fun e => k ⟨e.pos, e.rest, setCap e.caps i (s.take (e.pos - p))⟩) ⟨p, s, c⟩ :=
  rfl

theorem run_opt_isSome (r : Re) (k : MState → Option MState) (s : MState) :
    ((Re.opt r).run k s).isSome = true
      ↔ (r.run k s).isSome = true ∨ (k s).isSome = true := by
  rw [Re.run]
  cases r.run k s <;> simp

theorem run_one_isSome (a : CharClass) (k : MState → Option MState) (p : Nat) (s : Str)
    (c : Nat → Option Str) :
    ((Re.one a).run k ⟨p, s, c⟩).isSome = true
      ↔ ∃ x s', s = x :: s' ∧ a.test x = true ∧ (k ⟨p + 1, s', c⟩).isSome = true := by
  cases s with
  | nil => simp [Re.run]
  | cons y ys =>
    simp only [Re.run]
    by_cases hy : a.test y = true
    · rw [if_pos hy]
      constructor
      · intro h; exact ⟨y, ys, rfl, hy, h⟩
      · rintro ⟨x, s', hs, _, h⟩
        simp only [List.cons.injEq] at hs
        rw [hs.2]; exact h
    · rw [if_neg hy]
      constructor
      · intro h; exact absurd h (by simp)
      · rintro ⟨x, s', hs, hx, _⟩
        simp only [List.cons.injEq] at hs
        rw [hs.1] at hy
        exact absurd hx hy

theorem nonSpace_test_iff (c : Char) : CharClass.nonSpace.test c = true ↔ isSpace c = false := by
  simp [CharClass.test]

theorem space_test_iff (c : Char) : CharClass.space.test c = true ↔ isSpace c = true := by
  simp [CharClass.test]

theorem search_fstab_isSome (line : Str) :
    (regex_search line FstabRegex).isSome = true ↔ FstabLineShape line := by
  rw [isSome_regex_search]
  unfold FstabRegex
  rw [searchFrom_bol_zero]
  simp only [run_cat_cons, run_cat_nil, run_opt_isSome, run_group, run_seq, run_one_isSome,
    run_plus_isSome, run_str_isSome, Option.isSome_some, and_true]
  unfold FstabLineShape
  constructor
  · rintro (h | h)
    · obtain ⟨x, s0, rfl, hx, text, s1, htext, rfl, htextall, s2, rfl, dev, s3, hdev, rfl,
        hdevall, ws1, s4, hws1, rfl, hws1all, f3, s5, hf3, rfl, hf3all, ws2, s6, hws2, rfl,
        hws2all, f4, s7, hf4, rfl, hf4all, ws3, s8, hws3, rfl, hws3all, f5, s9, hf5, rfl,
        hf5all, ws4, s10, hws4, rfl, hws4all, f6, tail, hf6, rfl, hf6all⟩ := h
      have hx' : x = '#' := by simpa [CharClass.test] using hx
      subst hx'
      exact ⟨'#' :: text, dev, ws1, f3, ws2, f4, ws3, f5, ws4, f6, tail,
        Or.inr ⟨text, htext, fun c hc => (any_test_iff c).1 (htextall c hc), rfl⟩,
        ⟨hdev, fun c hc => (nonSpace_test_iff c).1 (hdevall c hc)⟩,
        ⟨hws1, fun c hc => (space_test_iff c).1 (hws1all c hc)⟩,
        ⟨hf3, fun c hc => (nonSpace_test_iff c).1 (hf3all c hc)⟩,
        ⟨hws2, fun c hc => (space_test_iff c).1 (hws2all c hc)⟩,
        ⟨hf4, fun c hc => (nonSpace_test_iff c).1 (hf4all c hc)⟩,
        ⟨hws3, fun c hc => (space_test_iff c).1 (hws3all c hc)⟩,
        ⟨hf5, fun c hc => (nonSpace_test_iff c).1 (hf5all c hc)⟩,
        ⟨hws4, fun c hc => (space_test_iff c).1 (hws4all c hc)⟩,
        ⟨hf6, fun c hc => (nonSpace_test_iff c).1 (hf6all c hc)⟩, by simp⟩
    · obtain ⟨s2, rfl, dev, s3, hdev, rfl,
        hdevall, ws1, s4, hws1, rfl, hws1all, f3, s5, hf3, rfl, hf3all, ws2, s6, hws2, rfl,
        hws2all, f4, s7, hf4, rfl, hf4all, ws3, s8, hws3, rfl, hws3all, f5, s9, hf5, rfl,
        hf5all, ws4, s10, hws4, rfl, hws4all, f6, tail, hf6, rfl, hf6all⟩ := h
      exact ⟨[], dev, ws1, f3, ws2, f4, ws3, f5, ws4, f6, tail, Or.inl rfl,
        ⟨hdev, fun c hc => (nonSpace_test_iff c).1 (hdevall c hc)⟩,
        ⟨hws1, fun c hc => (space_test_iff c).1 (hws1all c hc)⟩,
        ⟨hf3, fun c hc => (nonSpace_test_iff c).1 (hf3all c hc)⟩,
        ⟨hws2, fun c hc => (space_test_iff c).1 (hws2all c hc)⟩,
        ⟨hf4, fun c hc => (nonSpace_test_iff c).1 (hf4all c hc)⟩,
        ⟨hws3, fun c hc => (space_test_iff c).1 (hws3all c hc)⟩,
        ⟨hf5, fun c hc => (nonSpace_test_iff c).1 (hf5all c hc)⟩,
        ⟨hws4, fun c hc => (space_test_iff c).1 (hws4all c hc)⟩,
        ⟨hf6, fun c hc => (nonSpace_test_iff c).1 (hf6all c hc)⟩, by simp⟩
  · rintro ⟨comment, dev, ws1, f3, ws2, f4, ws3, f5, ws4, f6, tail, hcomment, hdev, hws1, hf3,
      hws2, hf4, hws3, hf5, hws4, hf6, rfl⟩
    have rest : ∃ s', "/dev/".toList ++ (dev ++ (ws1 ++ (f3 ++ (ws2 ++ (f4 ++ (ws3
          ++ (f5 ++ (ws4 ++ (f6 ++ tail))))))))) = "/dev/".toList ++ s'
        ∧ ∃ xs s'', xs ≠ [] ∧ s' = xs ++ s'' ∧ (∀ x ∈ xs, CharClass.nonSpace.test x = true)
        ∧ ∃ xs1 t1, xs1 ≠ [] ∧ s'' = xs1 ++ t1 ∧ (∀ x ∈ xs1, CharClass.space.test x = true)
        ∧ ∃ xs2 t2, xs2 ≠ [] ∧ t1 = xs2 ++ t2 ∧ (∀ x ∈ xs2, CharClass.nonSpace.test x = true)
        ∧ ∃ xs3 t3, xs3 ≠ [] ∧ t2 = xs3 ++ t3 ∧ (∀ x ∈ xs3, CharClass.space.test x = true)
        ∧ ∃ xs4 t4, xs4 ≠ [] ∧ t3 = xs4 ++ t4 ∧ (∀ x ∈ xs4, CharClass.nonSpace.test x = true)
        ∧ ∃ xs5 t5, xs5 ≠ [] ∧ t4 = xs5 ++ t5 ∧ (∀ x ∈ xs5, CharClass.space.test x = true)
        ∧ ∃ xs6 t6, xs6 ≠ [] ∧ t5 = xs6 ++ t6 ∧ (∀ x ∈ xs6, CharClass.nonSpace.test x = true)
        ∧ ∃ xs7 t7, xs7 ≠ [] ∧ t6 = xs7 ++ t7 ∧ (∀ x ∈ xs7, CharClass.space.test x = true)
        ∧ ∃ xs8 t8, xs8 ≠ [] ∧ t7 = xs8 ++ t8
          ∧ (∀ x ∈ xs8, CharClass.nonSpace.test x = true) :=
      ⟨_, rfl, dev, _, hdev.1, rfl, fun c hc => (nonSpace_test_iff c).2 (hdev.2 c hc),
        ws1, _, hws1.1, rfl, fun c hc => (space_test_iff c).2 (hws1.2 c hc),
        f3, _, hf3.1, rfl, fun c hc => (nonSpace_test_iff c).2 (hf3.2 c hc),
        ws2, _, hws2.1, rfl, fun c hc => (space_test_iff c).2 (hws2.2 c hc),
        f4, _, hf4.1, rfl, fun c hc => (nonSpace_test_iff c).2 (hf4.2 c hc),
        ws3, _, hws3.1, rfl, fun c hc => (space_test_iff c).2 (hws3.2 c hc),
        f5, _, hf5.1, rfl, fun c hc => (nonSpace_test_iff c).2 (hf5.2 c hc),
        ws4, _, hws4.1, rfl, fun c hc => (space_test_iff c).2 (hws4.2 c hc),
        f6, tail, hf6.1, rfl, fun c hc => (nonSpace_test_iff c).2 (hf6.2 c hc)⟩
    rcases hcomment with rfl | ⟨text, htext, htextall, rfl⟩
    · exact Or.inr rest
    · refine Or.inl ⟨'#', _, rfl, by simp [CharClass.test], text, _, htext, rfl,
        fun c hc => (any_test_iff c).2 (htextall c hc), ?_⟩
      exact rest

/-! ## Further lemmas on `stripManualMounts` and on failing calls -/

theorem isManualMount_head (line : Str) (h : isManualMount line = true) :
    ∃ c rest, line = c :: rest ∧ isSpace c = true := by
  obtain ⟨ws, action, ws', mid, target, tail, ⟨hne, hall⟩, _, _, _, _, rfl⟩ :=
    (isManualMount_iff line).1 h
  cases ws with
  | nil => exact absurd rfl hne
  | cons c cs =>
    exact ⟨c, _, by simp only [List.cons_append, List.append_assoc]; rfl,
      hall c (List.mem_cons_self _ _)⟩

theorem isManualMount_of_not_space (line : Str)
    (h : line = [] ∨ ∃ c rest, line = c :: rest ∧ isSpace c = false) :
    isManualMount line = false := by
  cases hm : isManualMount line
  · rfl
  · obtain ⟨c, rest, hline, hc⟩ := isManualMount_head line hm
    rcases h with h | ⟨d, rest', hline', hd⟩
    · rw [h] at hline; exact absurd hline (by simp)
    · rw [hline'] at hline
      simp only [List.cons.injEq] at hline
      rw [hline.1, hc] at hd
      exact absurd hd (by decide)

theorem isManualMount_hash (line : Str) : isManualMount ('#' :: line) = false :=
  isManualMount_of_not_space _ (Or.inr ⟨'#', line, rfl, by decide⟩)

theorem commentManualMounts_idem (lines : List Str) :
    commentManualMounts (commentManualMounts lines) = commentManualMounts lines := by
  induction lines with
  | nil => rfl
  | cons l ls ih =>
    simp only [commentManualMounts, ih]
    cases h : isManualMount l
    · simp [h]
    · simp [isManualMount_hash]

theorem stripContents_idem (contents : Str) :
    stripContents (stripContents contents) = stripContents contents := by
  show join (commentManualMounts (split (stripContents contents))) = _
  rw [split_stripContents, commentManualMounts_idem]
  rfl

theorem stripManualMounts_of_some {PC FI : Type} (self : Impl PC FI) (filename c : Str)
    (h : findContents filename self.cpio.files = some c) :
    QcomRamdiskPatcher.stripManualMounts self filename
      = (true, { self with cpio := self.cpio.setContents filename (stripContents c) }) := by
  unfold QcomRamdiskPatcher.stripManualMounts
  rw [contents_of_some _ _ _ h]

theorem stripManualMounts_of_none {PC FI : Type} (self : Impl PC FI) (filename : Str)
    (h : findContents filename self.cpio.files = none) :
    QcomRamdiskPatcher.stripManualMounts self filename
      = (false, { self with
          cpio := { self.cpio with error := ⟨ErrorCode.CpioFileNotExistError, filename, []⟩ },
          error := ⟨ErrorCode.CpioFileNotExistError, filename, []⟩ }) := by
  unfold QcomRamdiskPatcher.stripManualMounts
  rw [contents_of_none _ _ h]

theorem loop_append {PC FI : Type} (pre rest : List Str) (self : Impl PC FI) :
    addMissingCacheLoop (pre ++ rest) self
      = if (addMissingCacheLoop pre self).1 = true
        then addMissingCacheLoop rest (addMissingCacheLoop pre self).2
        else addMissingCacheLoop pre self := by
  induction pre generalizing self with
  | nil => simp [addMissingCacheLoop]
  | cons x xs ih =>
    cases hx : findContents x self.cpio.files with
    | none =>
      rw [List.cons_append, loop_cons_none x _ self hx, loop_cons_none x xs self hx]
      simp
    | some d =>
      rw [List.cons_append, loop_cons_some x _ self d hx, loop_cons_some x xs self d hx, ih]

theorem loop_findContents_isSome {PC FI : Type} (ts : List Str) (self : Impl PC FI) (t : Str) :
    (findContents t (addMissingCacheLoop ts self).2.cpio.files).isSome
      = (findContents t self.cpio.files).isSome := by
  have h1 := findContents_isSome_iff t (addMissingCacheLoop ts self).2.cpio.files
  have h2 := findContents_isSome_iff t self.cpio.files
  have hn : (addMissingCacheLoop ts self).2.cpio.files.map ArchiveEntry.name
      = self.cpio.files.map ArchiveEntry.name := loop_filenames ts self
  rw [hn] at h1
  rw [Bool.eq_iff_iff, h1, h2]

theorem loop_stops {PC FI : Type} (pre post : List Str) (t : Str) (self : Impl PC FI)
    (hpre : ∀ x ∈ pre, (findContents x self.cpio.files).isSome = true)
    (ht : findContents t self.cpio.files = none) :
    (addMissingCacheLoop (pre ++ t :: post) self).1 = false
    ∧ (addMissingCacheLoop (pre ++ t :: post) self).2.cpio.files
        = (addMissingCacheLoop pre self).2.cpio.files
    ∧ (addMissingCacheLoop pre self).1 = true := by
  have hok : (addMissingCacheLoop pre self).1 = true := (loop_true_iff pre self).2 hpre
  have htn : findContents t (addMissingCacheLoop pre self).2.cpio.files = none := by
    have := loop_findContents_isSome pre self t
    rw [ht] at this
    cases hf : findContents t (addMissingCacheLoop pre self).2.cpio.files with
    | none => rfl
    | some c => rw [hf] at this; exact absurd this (by simp)
  rw [loop_append, if_pos hok, loop_cons_none t post _ htn]
  exact ⟨rfl, rfl, hok⟩

/-! ## Further statements on `QcomRamdiskPatcher` -/

/-- C11: `stripManualMounts` changes only the named file and fails cleanly. If the
named file cannot be read, the call returns false, `error()` is the error that the
archive reports for that name, and every entry of the archive is as before; otherwise
the call returns true, the ordered sequence of entry names is as before, and every
entry whose name is not the named file is the same entry, at the same place. -/
theorem stripManualMounts_frame {PC FI : Type} (self : Impl PC FI) (filename : Str) :
    ((self.cpio.contents filename).1 = none →
      (QcomRamdiskPatcher.stripManualMounts self filename).1 = false
      ∧ QcomRamdiskPatcher.error (QcomRamdiskPatcher.stripManualMounts self filename).2
          = (self.cpio.contents filename).2.error
      ∧ (QcomRamdiskPatcher.stripManualMounts self filename).2.cpio.files = self.cpio.files)
    ∧ ((self.cpio.contents filename).1 ≠ none →
      (QcomRamdiskPatcher.stripManualMounts self filename).1 = true
      ∧ (QcomRamdiskPatcher.stripManualMounts self filename).2.cpio.filenames
          = self.cpio.filenames
      ∧ ∀ (i : Nat) (e : ArchiveEntry), self.cpio.files[i]? = some e → e.name ≠ filename →
          (QcomRamdiskPatcher.stripManualMounts self filename).2.cpio.files[i]? = some e) := by
  constructor
  · intro hnone
    have hf := (contents_fst_eq_none_iff _ _).1 hnone
    rw [stripManualMounts_of_none self filename hf, contents_of_none _ _ hf]
    exact ⟨rfl, rfl, rfl⟩
  · intro hsome
    cases hf : findContents filename self.cpio.files with
    | none => exact absurd ((contents_fst_eq_none_iff _ _).2 hf) hsome
    | some c =>
      rw [stripManualMounts_of_some self filename c hf]
      refine ⟨rfl, ?_, ?_⟩
      · exact map_name_replaceContents filename _ _ (by simp [hf])
      · intro i e hi hne
        exact getElem?_replaceContents filename _ _ i e hi hne

/-- C11, at the example archive: the missing file `init.target.rc` and the init
script `init.rc`. -/
theorem stripManualMounts_frame_witness :
    (examplePatcher.cpio.contents "init.target.rc".toList).1 = none
    ∧ (examplePatcher.cpio.contents "init.rc".toList).1 ≠ none
    ∧ ((QcomRamdiskPatcher.stripManualMounts examplePatcher "init.target.rc".toList).1 = false
      ∧ QcomRamdiskPatcher.error
          (QcomRamdiskPatcher.stripManualMounts examplePatcher "init.target.rc".toList).2
          = (examplePatcher.cpio.contents "init.target.rc".toList).2.error
      ∧ (QcomRamdiskPatcher.stripManualMounts examplePatcher
          "init.target.rc".toList).2.cpio.files = examplePatcher.cpio.files)
    ∧ (QcomRamdiskPatcher.stripManualMounts examplePatcher "init.rc".toList).1 = true :=
  ⟨by decide, by decide,
    (stripManualMounts_frame examplePatcher "init.target.rc".toList).1 (by decide),
    ((stripManualMounts_frame examplePatcher "init.rc".toList).2 (by decide)).1⟩

/-- C16: `stripManualMounts` is idempotent. For every file content the rewrite applied
twice gives the same content as applied once, and a second call on a file that can be
read returns true and leaves the patcher and its archive exactly as the first call
left them; for each of the six patterns needs a whitespace character at the beginning
of the line, and none of them is found in a line that begins with `#`. -/
theorem stripManualMounts_idempotent (contents : Str) :
    stripContents (stripContents contents) = stripContents contents
    ∧ (∀ {PC FI : Type} (self : Impl PC FI) (filename : Str),
        findContents filename self.cpio.files = some contents →
        findContents filename
            (QcomRamdiskPatcher.stripManualMounts self filename).2.cpio.files
          = some (stripContents contents)
        ∧ QcomRamdiskPatcher.stripManualMounts
            (QcomRamdiskPatcher.stripManualMounts self filename).2 filename
          = (true, (QcomRamdiskPatcher.stripManualMounts self filename).2))
    ∧ (∀ line, isManualMount line = true → ∃ c rest, line = c :: rest ∧ isSpace c = true)
    ∧ (∀ line, isManualMount ('#' :: line) = false) := by
  refine ⟨stripContents_idem contents, ?_, isManualMount_head, isManualMount_hash⟩
  intro PC FI self filename hread
  rw [stripManualMounts_of_some self filename contents hread]
  have hnew : findContents filename
      (self.cpio.setContents filename (stripContents contents)).files
      = some (stripContents contents) := findContents_replace_same _ _ _
  refine ⟨hnew, ?_⟩
  rw [stripManualMounts_of_some _ filename (stripContents contents) hnew, stripContents_idem]
  have hsame : (self.cpio.setContents filename (stripContents contents)).setContents filename
      (stripContents contents) = self.cpio.setContents filename (stripContents contents) := by
    simp only [CpioFile.setContents] at hnew ⊢
    rw [replaceContents_same filename (stripContents contents) _ hnew]
  simp only [hsame]

/-- C16, at the init script of the example archive: a second call changes nothing. -/
theorem stripManualMounts_idempotent_witness :
    findContents "init.rc".toList examplePatcher.cpio.files = some initScript
    ∧ stripContents (stripContents initScript) = initScriptStripped
    ∧ QcomRamdiskPatcher.stripManualMounts
        (QcomRamdiskPatcher.stripManualMounts examplePatcher "init.rc".toList).2
        "init.rc".toList
      = (true, (QcomRamdiskPatcher.stripManualMounts examplePatcher "init.rc".toList).2) :=
  ⟨by decide, by decide,
    ((stripManualMounts_idempotent initScript).2.1 examplePatcher "init.rc".toList
      (by decide)).2⟩

/-- C17: `stripManualMounts` never modifies a line that does not begin with a
whitespace character. For every file content, a line that is empty or whose first
character is not whitespace is the same line, at the same place, in the rewritten
content, which is the content that the call writes back; so is the mount action
`mount ext4 /dev/block/platform/msm_sdcc.1/by-name/userdata /data` at column 0. -/
theorem stripManualMounts_keeps_unindented (contents : Str) (i : Nat) (line : Str)
    (hline : (split contents)[i]? = some line)
    (hstart : line = [] ∨ ∃ c rest, line = c :: rest ∧ isSpace c = false) :
    (split (stripContents contents))[i]? = some line
    ∧ (∀ {PC FI : Type} (self : Impl PC FI) (filename : Str),
        findContents filename self.cpio.files = some contents →
        findContents filename
            (QcomRamdiskPatcher.stripManualMounts self filename).2.cpio.files
          = some (stripContents contents))
    ∧ stripContents columnZeroMount = columnZeroMount := by
  refine ⟨?_, ?_, by decide⟩
  · rw [split_stripContents, commentManualMounts_eq_map, List.getElem?_map, hline,
      Option.map_some', isManualMount_of_not_space line hstart]
    rfl
  · intro PC FI self filename hread
    rw [stripManualMounts_of_some self filename contents hread]
    exact findContents_replace_same _ _ _

/-- C17, at the mount action on the userdata block device written at column 0. -/
theorem stripManualMounts_keeps_unindented_witness :
    (split columnZeroMount)[0]? = some columnZeroMount
    ∧ (split (stripContents columnZeroMount))[0]? = some columnZeroMount
    ∧ stripContents columnZeroMount = columnZeroMount :=
  ⟨by decide,
    (stripManualMounts_keeps_unindented columnZeroMount 0 columnZeroMount (by decide)
      (Or.inr ⟨'m', "ount ext4 /dev/block/platform/msm_sdcc.1/by-name/userdata /data".toList,
        by decide, by decide⟩)).1,
    by decide⟩

/-- C18, as stated, fails: with the additional names `init.target.rc`, which is
missing, and `fstab.qcom`, the call on the example archive returns false at the
position of `init.target.rc`; `fstab.qcom` is a target after that position, and its
content has been modified, being also a target before that position. -/
theorem target_after_failure_modified :
    fstabTargets examplePatcher.cpio ["init.target.rc".toList, "fstab.qcom".toList]
      = ["fstab.qcom".toList, "fstab.cached".toList, "fstab.commented".toList]
          ++ "init.target.rc".toList :: ["fstab.qcom".toList]
    ∧ (∀ x ∈ ["fstab.qcom".toList, "fstab.cached".toList, "fstab.commented".toList],
        (examplePatcher.cpio.contents x).1.isSome = true)
    ∧ (examplePatcher.cpio.contents "init.target.rc".toList).1 = none
    ∧ (QcomRamdiskPatcher.addMissingCacheInFstab examplePatcher
        ["init.target.rc".toList, "fstab.qcom".toList]).1 = false
    ∧ findContents "fstab.qcom".toList examplePatcher.cpio.files = some systemFstab
    ∧ findContents "fstab.qcom".toList
        (QcomRamdiskPatcher.addMissingCacheInFstab examplePatcher
          ["init.target.rc".toList, "fstab.qcom".toList]).2.cpio.files
      = some (systemFstab ++ '\n' :: cacheLine) := by
  decide

/-- C18, amended: a failing `addMissingCacheInFstab` is not atomic. When the target
list is `pre`, then `t`, then `post`, every name of `pre` can be read and `t` cannot,
the call returns false, every target of `pre` holds its original content passed
through the rewrite of a successful call, and every entry whose name does not occur
in `pre`, in particular every target of `post` that is not also in `pre`, is the same
entry as before. -/
theorem addMissingCacheInFstab_not_atomic {PC FI : Type} (self : Impl PC FI)
    (additionalFstabs pre post : List Str) (t : Str)
    (htargets : fstabTargets self.cpio additionalFstabs = pre ++ t :: post)
    (hpre : ∀ x ∈ pre, (self.cpio.contents x).1.isSome = true)
    (ht : (self.cpio.contents t).1 = none) :
    (QcomRamdiskPatcher.addMissingCacheInFstab self additionalFstabs).1 = false
    ∧ (∀ x ∈ pre, ∀ c, findContents x self.cpio.files = some c →
        findContents x
            (QcomRamdiskPatcher.addMissingCacheInFstab self additionalFstabs).2.cpio.files
          = some (addCacheLine c))
    ∧ (∀ (i : Nat) (e : ArchiveEntry), self.cpio.files[i]? = some e → e.name ∉ pre →
        (QcomRamdiskPatcher.addMissingCacheInFstab self additionalFstabs).2.cpio.files[i]?
          = some e)
    ∧ (∀ x ∈ post, x ∉ pre →
        findContents x
            (QcomRamdiskPatcher.addMissingCacheInFstab self additionalFstabs).2.cpio.files
          = findContents x self.cpio.files) := by
  have hpre2 : ∀ x ∈ pre, (findContents x self.cpio.files).isSome = true := by
    intro x hx
    rw [← isSome_contents_fst]
    exact hpre x hx
  have ht2 := (contents_fst_eq_none_iff _ _).1 ht
  obtain ⟨hfalse, hfiles, hok⟩ := loop_stops pre post t self hpre2 ht2
  unfold QcomRamdiskPatcher.addMissingCacheInFstab
  rw [htargets]
  refine ⟨hfalse, ?_, ?_, ?_⟩
  · intro x hx c hc
    rw [hfiles]
    exact loop_contents pre self x c hok hx hc
  · intro i e hi hne
    rw [hfiles]
    exact loop_frame pre self i e hi hne
  · intro x _ hxpre
    rw [hfiles]
    have hkeep : ∀ (ts : List Str) (s : Impl PC FI), x ∉ ts →
        findContents x (addMissingCacheLoop ts s).2.cpio.files
          = findContents x s.cpio.files := by
      intro ts
      induction ts with
      | nil => intro s _; rfl
      | cons y ys ih =>
        intro s hnot
        have hy : y ≠ x := fun h => hnot (by simp [h])
        have hys : x ∉ ys := fun h => hnot (List.mem_cons_of_mem _ h)
        cases hf : findContents y s.cpio.files with
        | none => rw [loop_cons_none y ys s hf]
        | some d =>
          rw [loop_cons_some y ys s d hf, ih _ hys]
          exact findContents_replace_other y x _ _ hy
    exact hkeep pre self hxpre

/-- C18 amended, at the example archive with the additional names `init.target.rc`,
which is missing, and `init.rc`. -/
theorem addMissingCacheInFstab_not_atomic_witness :
    (QcomRamdiskPatcher.addMissingCacheInFstab examplePatcher
        ["init.target.rc".toList, "init.rc".toList]).1 = false
    ∧ (∀ x ∈ ["fstab.qcom".toList, "fstab.cached".toList, "fstab.commented".toList], ∀ c,
        findContents x examplePatcher.cpio.files = some c →
        findContents x
            (QcomRamdiskPatcher.addMissingCacheInFstab examplePatcher
              ["init.target.rc".toList, "init.rc".toList]).2.cpio.files
          = some (addCacheLine c))
    ∧ (∀ (i : Nat) (e : ArchiveEntry), examplePatcher.cpio.files[i]? = some e →
        e.name ∉ ["fstab.qcom".toList, "fstab.cached".toList, "fstab.commented".toList] →
        (QcomRamdiskPatcher.addMissingCacheInFstab examplePatcher
          ["init.target.rc".toList, "init.rc".toList]).2.cpio.files[i]? = some e)
    ∧ (∀ x ∈ ["init.rc".toList],
        x ∉ ["fstab.qcom".toList, "fstab.cached".toList, "fstab.commented".toList] →
        findContents x
            (QcomRamdiskPatcher.addMissingCacheInFstab examplePatcher
              ["init.target.rc".toList, "init.rc".toList]).2.cpio.files
          = findContents x examplePatcher.cpio.files) :=
  addMissingCacheInFstab_not_atomic examplePatcher ["init.target.rc".toList, "init.rc".toList]
    ["fstab.qcom".toList, "fstab.cached".toList, "fstab.commented".toList]
    ["init.rc".toList] "init.target.rc".toList (by decide) (by decide) (by decide)

/-- C19: cache-line recognition needs a `/dev/` device node at column 0, or after a
`#` comment, followed by at least four more whitespace-separated fields. A line that
passes the test of `addMissingCacheInFstab` has that shape; the four-field line
`/dev/block/x /cache ext4 defaults` and the indented line
`  /dev/block/x /cache ext4 defaults wait` do not pass it, so the call appends the
synthesized cache line to both files, each of which then has two lines whose mount
point is `/cache`. -/
theorem unrecognised_cache_entries :
    (∀ line, isCacheLine line = true → FstabLineShape line)
    ∧ isCacheLine fourFieldFstab = false
    ∧ isCacheLine indentedFstab = false
    ∧ (QcomRamdiskPatcher.addMissingCacheInFstab unrecognisedPatcher []).1 = true
    ∧ findContents "fstab.four".toList
        (QcomRamdiskPatcher.addMissingCacheInFstab unrecognisedPatcher []).2.cpio.files
      = some (fourFieldFstab ++ '\n' :: cacheLine)
    ∧ findContents "fstab.indented".toList
        (QcomRamdiskPatcher.addMissingCacheInFstab unrecognisedPatcher []).2.cpio.files
      = some (indentedFstab ++ '\n' :: cacheLine)
    ∧ cacheMountLines (fourFieldFstab ++ '\n' :: cacheLine) = [fourFieldFstab, cacheLine]
    ∧ cacheMountLines (indentedFstab ++ '\n' :: cacheLine) = [indentedFstab, cacheLine] := by
  refine ⟨?_, by decide, by decide, by decide, by decide, by decide, by decide, by decide⟩
  intro line h
  apply (search_fstab_isSome line).1
  unfold isCacheLine at h
  cases hr : regex_search line FstabRegex with
  | none => rw [hr] at h; exact absurd h (by decide)
  | some what => rfl

/-! ## Lemmas on `QString::arg` and `errorToString` -/

theorem split_eq_splitAnyOf (contents : Str) :
    split contents = splitAnyOf "\n".toList contents := by
  induction contents with
  | nil => rfl
  | cons c cs ih =>
    rw [split_cons, splitAnyOf, ← ih]
    by_cases hc : c = '\n'
    · subst hc; rfl
    · have hmem : c ∉ "\n".toList := by
        intro h
        exact hc (by simpa using h)
      rw [if_neg hc, if_neg hmem]

theorem lowestMarker_append_marker (pre : Str) (h : '%' ∉ pre) :
    lowestMarker (pre ++ "%1".toList) = some 1 := by
  induction pre with
  | nil => decide
  | cons c cs ih =>
    have hc : c ≠ '%' := fun e => h (by simp [e])
    have hcs : '%' ∉ cs := fun e => h (List.mem_cons_of_mem _ e)
    rw [List.cons_append, lowestMarker, if_neg hc, ih hcs]

theorem replaceMarker_append_marker (pre a : Str) (h : '%' ∉ pre) :
    replaceMarker 1 a 0 (pre ++ "%1".toList) = pre ++ a := by
  induction pre with
  | nil =>
    show a ++ [] = [] ++ a
    simp
  | cons c cs ih =>
    have hc : c ≠ '%' := fun e => h (by simp [e])
    have hcs : '%' ∉ cs := fun e => h (List.mem_cons_of_mem _ e)
    rw [List.cons_append, replaceMarker, if_neg hc, ih hcs]
    rfl

theorem arg_append_marker (pre a : Str) (h : '%' ∉ pre) :
    QString.arg (pre ++ "%1".toList) a = pre ++ a := by
  unfold QString.arg
  rw [lowestMarker_append_marker pre h]
  exact replaceMarker_append_marker pre a h

theorem errorToString_eq (error : PatcherError) :
    errorToString error = some (expectedMessage error) := by
  obtain ⟨code, filename, patcherId⟩ := error
  cases code
  case NoError => rfl
  case UnknownError => rfl
  case PatcherCreateError =>
    exact congrArg some
      (arg_append_marker "Failed to create patcher: ".toList patcherId (by decide))
  case AutoPatcherCreateError =>
    exact congrArg some
      (arg_append_marker "Failed to create autopatcher: ".toList patcherId (by decide))
  case RamdiskPatcherCreateError =>
    exact congrArg some
      (arg_append_marker "Failed to create ramdisk patcher: ".toList patcherId (by decide))
  case FileOpenError =>
    exact congrArg some (arg_append_marker "Failed to open file: ".toList filename (by decide))
  case FileReadError =>
    exact congrArg some
      (arg_append_marker "Failed to read from file: ".toList filename (by decide))
  case FileWriteError =>
    exact congrArg some
      (arg_append_marker "Failed to write to file: ".toList filename (by decide))
  case DirectoryNotExistError =>
    exact congrArg some
      (arg_append_marker "Directory does not exist: ".toList filename (by decide))
  case BootImageParseError => rfl
  case BootImageApplyBumpError => rfl
  case BootImageApplyLokiError => rfl
  case CpioFileAlreadyExistsError =>
    exact congrArg some
      (arg_append_marker "File already exists in cpio archive: ".toList filename (by decide))
  case CpioFileNotExistError =>
    exact congrArg some
      (arg_append_marker "File does not exist in cpio archive: ".toList filename (by decide))
  case ArchiveReadOpenError => rfl
  case ArchiveReadDataError =>
    exact congrArg some
      (arg_append_marker "Failed to read archive data for file: ".toList filename (by decide))
  case ArchiveReadHeaderError => rfl
  case ArchiveWriteOpenError => rfl
  case ArchiveWriteDataError =>
    exact congrArg some
      (arg_append_marker "Failed to write archive data for file: ".toList filename
        (by decide))
  case ArchiveWriteHeaderError =>
    exact congrArg some
      (arg_append_marker "Failed to write archive header for file: ".toList filename
        (by decide))
  case ArchiveCloseError => rfl
  case ArchiveFreeError => rfl
  case XmlParseFileError =>
    exact congrArg some
      (arg_append_marker "Failed to parse XML file: ".toList filename (by decide))
  case OnlyZipSupported =>
    exact congrArg some
      (arg_append_marker "Only ZIP files are supported by ".toList patcherId (by decide))
  case OnlyBootImageSupported =>
    exact congrArg some
      (arg_append_marker "Only boot images are supported by ".toList patcherId (by decide))
  case PatchingCancelled => rfl
  case SystemCacheFormatLinesNotFound => rfl

theorem expectedMessage_ne_nil (error : PatcherError) : expectedMessage error ≠ [] := by
  obtain ⟨code, filename, patcherId⟩ := error
  cases code <;> simp [expectedMessage]

/-! ## Statements on `gui/mainwindow.cpp` -/

/-- C12: `errorToString` is total over the closed set of error kinds. For each of the
27 kinds and every filename and patcher id, the `switch` has a case for the kind, so
that `default: assert(false)` is not reached, and the returned message is not empty;
the `switch` has 27 case labels, no two of them equal. -/
theorem errorToString_total (code : ErrorCode) (filename patcherId : Str) :
    (errorToStringCases.lookup code).isSome = true
    ∧ (∃ message, errorToString ⟨code, filename, patcherId⟩ = some message ∧ message ≠ [])
    ∧ errorToStringCases.length = 27
    ∧ (errorToStringCases.map Prod.fst).Nodup := by
  refine ⟨?_, ⟨_, errorToString_eq _, expectedMessage_ne_nil _⟩, rfl, by decide⟩
  cases code <;> rfl

/-- C13: `errorToString` exposes only the contextual field of the kind. The message is
determined by the kind, the filename and the patcher id; for the ten kinds that carry
a filename it is a fixed text followed by the filename, whatever the patcher id; for
the five kinds that carry a patcher id it is a fixed text followed by the patcher id,
whatever the filename; for every other kind it is a fixed text. -/
theorem errorToString_fields :
    (∀ e1 e2 : PatcherError, e1.errorCode = e2.errorCode → e1.filename = e2.filename →
      e1.patcherId = e2.patcherId → errorToString e1 = errorToString e2)
    ∧ (∀ code ∈ filenameKinds, ∃ text, ∀ filename patcherId,
        errorToString ⟨code, filename, patcherId⟩ = some (text ++ filename))
    ∧ (∀ code ∈ patcherIdKinds, ∃ text, ∀ filename patcherId,
        errorToString ⟨code, filename, patcherId⟩ = some (text ++ patcherId))
    ∧ (∀ code, code ∉ filenameKinds → code ∉ patcherIdKinds → ∃ text, ∀ filename patcherId,
        errorToString ⟨code, filename, patcherId⟩ = some text)
    ∧ filenameKinds.length = 10 ∧ patcherIdKinds.length = 5 := by
  refine ⟨?_, ?_, ?_, ?_, rfl, rfl⟩
  · rintro ⟨c1, f1, p1⟩ ⟨c2, f2, p2⟩ hc hf hp
    simp only at hc hf hp
    rw [hc, hf, hp]
  · intro code hmem
    simp only [filenameKinds, List.mem_cons, List.mem_singleton, List.not_mem_nil,
      or_false] at hmem
    rcases hmem with h | h | h | h | h | h | h | h | h | h <;> subst h <;>
      exact ⟨_, fun f p => errorToString_eq ⟨_, f, p⟩⟩
  · intro code hmem
    simp only [patcherIdKinds, List.mem_cons, List.mem_singleton, List.not_mem_nil,
      or_false] at hmem
    rcases hmem with h | h | h | h | h <;> subst h <;>
      exact ⟨_, fun f p => errorToString_eq ⟨_, f, p⟩⟩
  · intro code h1 h2
    cases code <;>
      first
      | exact ⟨_, fun f p => errorToString_eq ⟨_, f, p⟩⟩
      | exact absurd (by decide) h1
      | exact absurd (by decide) h2

theorem patch_eq {P FI : Type} (ops : Patcher P FI) (patcher : P) (info : FI) :
    PatcherTask.patch ops patcher info
      = if (ops.patchFile (ops.setFileInfo patcher (some info))).1 = false then
          some (⟨[], true,
              expectedMessage (ops.error (ops.setFileInfo
                (ops.patchFile (ops.setFileInfo patcher (some info))).2 none))⟩,
            ops.setFileInfo (ops.patchFile (ops.setFileInfo patcher (some info))).2 none)
        else
          some (⟨ops.newFilePath (ops.patchFile (ops.setFileInfo patcher (some info))).2,
              false, []⟩,
            ops.setFileInfo (ops.patchFile (ops.setFileInfo patcher (some info))).2 none) := by
  unfold PatcherTask.patch
  simp only [errorToString_eq, fromStdString]
  cases (ops.patchFile (ops.setFileInfo patcher (some info))).1 <;> rfl

/-- C14: `PatcherTask::patch` reports the outcome of the job. It emits a `finished`
signal for every job. When `patchFile` returned false the signal has `failed` true, an
empty new-file path and the message that `errorToString` gives for the error of the
patcher; when `patchFile` returned true it has `failed` false, the new-file path that
the patcher reports after `patchFile` and an empty message. In both cases the last
operation on the patcher sets its file info to none. -/
theorem patcherTask_patch_outcome {P FI : Type} (ops : Patcher P FI) (patcher : P)
    (info : FI) :
    ∃ signal, PatcherTask.patch ops patcher info
        = some (signal,
            ops.setFileInfo (ops.patchFile (ops.setFileInfo patcher (some info))).2 none)
      ∧ signal.failed = !(ops.patchFile (ops.setFileInfo patcher (some info))).1
      ∧ ((ops.patchFile (ops.setFileInfo patcher (some info))).1 = false →
          signal.newFile = []
          ∧ errorToString (ops.error
              (ops.setFileInfo (ops.patchFile (ops.setFileInfo patcher (some info))).2 none))
            = some signal.errorMessage)
      ∧ ((ops.patchFile (ops.setFileInfo patcher (some info))).1 = true →
          signal.newFile
            = ops.newFilePath (ops.patchFile (ops.setFileInfo patcher (some info))).2
          ∧ signal.errorMessage = []) := by
  rw [patch_eq]
  cases h : (ops.patchFile (ops.setFileInfo patcher (some info))).1
  · exact ⟨_, by rw [if_pos rfl], rfl, fun _ => ⟨rfl, errorToString_eq _⟩,
      fun hc => absurd hc (by decide)⟩
  · exact ⟨_, by rw [if_neg (by decide)], rfl, fun hc => absurd hc (by decide),
      fun _ => ⟨rfl, rfl⟩⟩

/-- C14, at the example patcher: the job `rom.zip` succeeds and the job `other.zip`
fails. -/
theorem patcherTask_patch_outcome_witness :
    PatcherTask.patch exampleOps none "rom.zip".toList
      = some (⟨"rom.zip_patched".toList, false, []⟩, none)
    ∧ PatcherTask.patch exampleOps none "other.zip".toList
      = some (⟨[], true, "Failed to open file: other.zip".toList⟩, none)
    ∧ ∃ signal, PatcherTask.patch exampleOps none "other.zip".toList
        = some (signal,
            exampleOps.setFileInfo
              (exampleOps.patchFile (exampleOps.setFileInfo none
                (some "other.zip".toList))).2 none)
      ∧ signal.failed
          = !(exampleOps.patchFile (exampleOps.setFileInfo none
              (some "other.zip".toList))).1 :=
  ⟨by decide, by decide,
    (patcherTask_patch_outcome exampleOps none "other.zip".toList).imp
      (fun _ h => ⟨h.1, h.2.1⟩)⟩

/-- C15: the profile that `startPatching` builds for an unsupported file with the
preset `Custom`, from a fresh profile without autopatcher, has exactly one
autopatcher, `StandardPatcher` with no arguments; `hasBootImage` equal to the
`Has boot image` checkbox; `deviceCheck` equal to the negation of the
`Remove device check` checkbox; when `hasBootImage` is true its ramdisk name is the
device id followed by `/default` and its boot-image names are the trimmed text split
at every `,` if the trimmed text is not empty, and those of the fresh profile if it
is; when `hasBootImage` is false both are those of the fresh profile, whatever the
boot-image text is. -/
theorem startPatching_custom_profile (fresh : PatchInfo) (d : MainWindowPrivate)
    (hunsupported : d.supported = 0) (hcustom : d.presetSelIndex = 0)
    (hfresh : fresh.autoPatchers = []) :
    ∃ profile, (MainWindow.startPatching fresh d).patchInfo = some profile
      ∧ profile.autoPatchers = [("StandardPatcher".toList, [])]
      ∧ profile.hasBootImage = d.hasBootImageCb
      ∧ profile.deviceCheck = !d.deviceCheckCb
      ∧ (d.hasBootImageCb = true →
          profile.ramdisk = d.deviceId ++ "/default".toList
          ∧ (trimmed d.bootImageLe ≠ [] →
              profile.bootImages = splitAnyOf ",".toList (trimmed d.bootImageLe))
          ∧ (trimmed d.bootImageLe = [] → profile.bootImages = fresh.bootImages))
      ∧ (d.hasBootImageCb = false →
          profile.ramdisk = fresh.ramdisk ∧ profile.bootImages = fresh.bootImages) := by
  refine ⟨customPatchInfo fresh d, ?_, ?_, ?_, ?_, ?_, ?_⟩
  · unfold MainWindow.startPatching
    rw [if_pos hunsupported, if_pos hcustom]
  · unfold customPatchInfo
    cases hb : d.hasBootImageCb <;> cases ht : (trimmed d.bootImageLe).isEmpty <;>
      simp [PatchInfo.addAutoPatcher, PatchInfo.setHasBootImage, PatchInfo.setRamdisk,
        PatchInfo.setBootImages, PatchInfo.setDeviceCheck, hfresh, hb, ht]
  · unfold customPatchInfo
    cases hb : d.hasBootImageCb <;> cases ht : (trimmed d.bootImageLe).isEmpty <;>
      simp [PatchInfo.addAutoPatcher, PatchInfo.setHasBootImage, PatchInfo.setRamdisk,
        PatchInfo.setBootImages, PatchInfo.setDeviceCheck, hb, ht]
  · unfold customPatchInfo
    rfl
  · intro hb
    unfold customPatchInfo
    refine ⟨?_, ?_, ?_⟩
    · cases ht : (trimmed d.bootImageLe).isEmpty <;>
        simp [PatchInfo.addAutoPatcher, PatchInfo.setHasBootImage, PatchInfo.setRamdisk,
          PatchInfo.setBootImages, PatchInfo.setDeviceCheck, hb, ht]
    · intro hne
      have ht : (trimmed d.bootImageLe).isEmpty = false := by
        cases h : trimmed d.bootImageLe with
        | nil => exact absurd h hne
        | cons _ _ => rfl
      simp [PatchInfo.addAutoPatcher, PatchInfo.setHasBootImage, PatchInfo.setRamdisk,
        PatchInfo.setBootImages, PatchInfo.setDeviceCheck, hb, ht, toStdString]
    · intro he
      simp [PatchInfo.addAutoPatcher, PatchInfo.setHasBootImage, PatchInfo.setRamdisk,
        PatchInfo.setBootImages, PatchInfo.setDeviceCheck, hb, he]
  · intro hb
    unfold customPatchInfo
    simp [PatchInfo.addAutoPatcher, PatchInfo.setHasBootImage, PatchInfo.setRamdisk,
      PatchInfo.setBootImages, PatchInfo.setDeviceCheck, hb]

/-- C15, at the example window: an unsupported file, the preset `Custom`, both
checkboxes checked and the text ` boot.img,recovery.img `. -/
theorem startPatching_custom_profile_witness :
    (MainWindow.startPatching freshPatchInfo customWindow).patchInfo
      = some { autoPatchers := [("StandardPatcher".toList, [])], hasBootImage := true,
               ramdisk := "trelte/default".toList,
               bootImages := ["boot.img".toList, "recovery.img".toList],
               deviceCheck := false }
    ∧ ∃ profile, (MainWindow.startPatching freshPatchInfo customWindow).patchInfo
          = some profile
        ∧ profile.autoPatchers = [("StandardPatcher".toList, [])]
        ∧ profile.hasBootImage = customWindow.hasBootImageCb
        ∧ profile.deviceCheck = !customWindow.deviceCheckCb :=
  ⟨by decide,
    (startPatching_custom_profile freshPatchInfo customWindow (by decide) (by decide)
      (by decide)).imp (fun _ h => ⟨h.1, h.2.1, h.2.2.1, h.2.2.2.1⟩)⟩

/-- C20: the ramdisk name of the custom profile selects the default patcher of the
family. `TrelteDefaultRamdiskPatcher::id` returns `trelte/default` for every
instance, whatever its configuration, file info and archive; and for a device whose id
is `trelte`, the ramdisk name that `startPatching` puts in the custom profile, when it
has a boot image, is equal to that id. -/
theorem trelte_id_selected_by_custom_profile (fresh : PatchInfo) (d : MainWindowPrivate)
    (hunsupported : d.supported = 0) (hcustom : d.presetSelIndex = 0)
    (hboot : d.hasBootImageCb = true) (hdevice : d.deviceId = "trelte".toList) :
    (∀ {PC FI : Type} (self : Impl PC FI),
      TrelteDefaultRamdiskPatcher.id self = "trelte/default".toList)
    ∧ ∃ profile, (MainWindow.startPatching fresh d).patchInfo = some profile
        ∧ profile.ramdisk = d.deviceId ++ "/default".toList
        ∧ ∀ {PC FI : Type} (self : Impl PC FI),
            profile.ramdisk = TrelteDefaultRamdiskPatcher.id self := by
  have hram : (customPatchInfo fresh d).ramdisk = d.deviceId ++ "/default".toList := by
    unfold customPatchInfo
    cases ht : (trimmed d.bootImageLe).isEmpty <;>
      simp [PatchInfo.addAutoPatcher, PatchInfo.setHasBootImage, PatchInfo.setRamdisk,
        PatchInfo.setBootImages, PatchInfo.setDeviceCheck, hboot, ht]
  refine ⟨fun _ => rfl, customPatchInfo fresh d, ?_, hram, ?_⟩
  · unfold MainWindow.startPatching
    rw [if_pos hunsupported, if_pos hcustom]
  · intro PC FI self
    rw [hram, hdevice]
    rfl

/-- C20, at the example window, whose device is `trelte`, and the example patcher. -/
theorem trelte_id_selected_by_custom_profile_witness :
    TrelteDefaultRamdiskPatcher.id examplePatcher = "trelte/default".toList
    ∧ ∃ profile, (MainWindow.startPatching freshPatchInfo customWindow).patchInfo
          = some profile
        ∧ profile.ramdisk = TrelteDefaultRamdiskPatcher.id examplePatcher :=
  ⟨(trelte_id_selected_by_custom_profile freshPatchInfo customWindow (by decide) (by decide)
      (by decide) (by decide)).1 examplePatcher,
    (trelte_id_selected_by_custom_profile freshPatchInfo customWindow (by decide) (by decide)
      (by decide) (by decide)).2.imp (fun _ h => ⟨h.1, h.2.2 examplePatcher⟩)⟩

end mbp
